import Mathlib

/-!
Shallow embedding of the HelloGolang Binutils toolkit (ELF parser, nm symbol
lister, toy assembler, toy linker, `ar` archive codec) and verification of the
specification's claims about it.

Modelling conventions:
* Go byte slices are `List Nat` (each element a byte value); Go strings that
  are only compared and concatenated are Lean `String`s, while Go strings that
  are re-read bytewise (archive member names) are `List Nat`.
* Go `uint16/uint32/uint64` values are `Nat`; arithmetic that can wrap is
  reduced modulo `2 ^ 64` explicitly where the source can overflow.
* An `io.ReadSeeker` over a byte slice is modelled by the byte list plus an
  explicit position: `Read` into a fresh `n`-byte buffer yields the available
  bytes zero-padded to `n` and fails (`(0, io.EOF)`) exactly when the position
  is at or past the end; `Seek` only fails when the target does not fit in a
  non-negative `int64`.
* Fallible Go functions returning `(T, error)` become `Except String T`; a Go
  function that mutates `*ELF` and returns `error` becomes
  `... → Except String ELF`.
-/

/-! ## Byte-level utilities -/

/-- Go slice indexing `bs[i]` on a buffer known to be large enough; out of
range reads give 0 (all call sites below stay in range of zero-padded
buffers). -/
def byteAt (bs : List Nat) (i : Nat) : Nat := bs.getD i 0

/-- Go slicing `bs[lo:hi]`. -/
def sliceBytes (bs : List Nat) (lo hi : Nat) : List Nat := (bs.drop lo).take (hi - lo)

/-- A fresh Go buffer `make([]byte, n)` after `Read` copied `bs` into it:
the bytes read, zero-padded to length `n`. -/
def padTo (n : Nat) (bs : List Nat) : List Nat := bs ++ List.replicate (n - bs.length) 0

/-- `encoding/binary` byte orders. -/
inductive ByteOrder where
  | little
  | big
deriving DecidableEq, Repr

/-- `endian.Uint16(bs)`. -/
def ByteOrder.Uint16 (bo : ByteOrder) (bs : List Nat) : Nat :=
  match bo with
  | .little => byteAt bs 0 + 256 * byteAt bs 1
  | .big => byteAt bs 1 + 256 * byteAt bs 0

/-- `endian.Uint32(bs)`. -/
def ByteOrder.Uint32 (bo : ByteOrder) (bs : List Nat) : Nat :=
  match bo with
  | .little => byteAt bs 0 + 256 * byteAt bs 1 + 65536 * byteAt bs 2 + 16777216 * byteAt bs 3
  | .big => byteAt bs 3 + 256 * byteAt bs 2 + 65536 * byteAt bs 1 + 16777216 * byteAt bs 0

/-- `endian.Uint64(bs)`. -/
def ByteOrder.Uint64 (bo : ByteOrder) (bs : List Nat) : Nat :=
  match bo with
  | .little =>
      byteAt bs 0 + 256 * byteAt bs 1 + 65536 * byteAt bs 2 + 16777216 * byteAt bs 3 +
      4294967296 * byteAt bs 4 + 1099511627776 * byteAt bs 5 +
      281474976710656 * byteAt bs 6 + 72057594037927936 * byteAt bs 7
  | .big =>
      byteAt bs 7 + 256 * byteAt bs 6 + 65536 * byteAt bs 5 + 16777216 * byteAt bs 4 +
      4294967296 * byteAt bs 3 + 1099511627776 * byteAt bs 2 +
      281474976710656 * byteAt bs 1 + 72057594037927936 * byteAt bs 0

/-- Go `string(bs)` for a byte slice (names in this toolkit are ASCII). -/
def bytesToString (bs : List Nat) : String := String.mk (bs.map Char.ofNat)

/-- Go `[]byte(s)`. -/
def stringToBytes (s : String) : List Nat := s.toList.map Char.toNat

/-- Decimal digit characters of `n`, least significant first. -/
def decDigitsRev : Nat → List Char
  | 0 => []
  | n + 1 =>
      Char.ofNat (48 + (n + 1) % 10) :: decDigitsRev ((n + 1) / 10)
decreasing_by exact Nat.div_lt_self (Nat.succ_pos n) (by norm_num)

/-- `fmt.Sprintf("%d", n)` for a natural number. -/
def natToDecStr (n : Nat) : String := if n = 0 then "0" else String.mk (decDigitsRev n).reverse

/-- Hex digit character (lowercase, as Go's `%x`). -/
def hexDigitChar (n : Nat) : Char := if n < 10 then Char.ofNat (48 + n) else Char.ofNat (87 + n)

/-- Hex digit characters of `n`, least significant first. -/
def hexDigitsRev : Nat → List Char
  | 0 => []
  | n + 1 => hexDigitChar ((n + 1) % 16) :: hexDigitsRev ((n + 1) / 16)
decreasing_by exact Nat.div_lt_self (Nat.succ_pos n) (by norm_num)

/-- `fmt.Sprintf("%0Wx", n)`: lowercase hex, zero-padded to width `w`. -/
def hexPadStr (w : Nat) (n : Nat) : String :=
  let ds := if n = 0 then ['0'] else (hexDigitsRev n).reverse
  String.mk (List.replicate (w - ds.length) '0' ++ ds)

/-! ## ELF data model (`Projects/Binutils/elf/elf.go`)

Field names follow the Go source; the Go field `Type` is spelled `Type'`
because `Type` is reserved in Lean. All integer fields are `Nat`. Defaults
are the Go zero values. -/

/-- `elf.ELFHeader`. -/
structure ELFHeader where
  Magic : List Nat := [0, 0, 0, 0]
  Class : Nat := 0
  Data : Nat := 0
  Version : Nat := 0
  OSABI : Nat := 0
  ABIVersion : Nat := 0
  Padding : List Nat := [0, 0, 0, 0, 0, 0, 0]
  Type' : Nat := 0
  Machine : Nat := 0
  Version32 : Nat := 0
  Entry64 : Nat := 0
  PhOff64 : Nat := 0
  ShOff64 : Nat := 0
  Flags : Nat := 0
  EhSize : Nat := 0
  PhentSize : Nat := 0
  PhNum : Nat := 0
  ShentSize : Nat := 0
  ShNum : Nat := 0
  ShStrndx : Nat := 0
deriving DecidableEq, Repr

/-- `elf.Section`. -/
structure ELFSection where
  Name : String := ""
  Type' : Nat := 0
  Flags : Nat := 0
  Addr : Nat := 0
  Offset : Nat := 0
  Size : Nat := 0
  Link : Nat := 0
  Info : Nat := 0
  AddrAlign : Nat := 0
  EntSize : Nat := 0
  Data : List Nat := []
deriving DecidableEq, Repr

/-- `elf.Segment` (declared by the source; never populated by the parser). -/
structure ELFSegment where
  Type' : Nat := 0
  Flags : Nat := 0
  Offset : Nat := 0
  VAddr : Nat := 0
  PAddr : Nat := 0
  FileSz : Nat := 0
  MemSz : Nat := 0
  Align : Nat := 0
deriving DecidableEq, Repr

/-- `elf.Symbol`. -/
structure ELFSymbol where
  Name : String := ""
  Value : Nat := 0
  Size : Nat := 0
  Info : Nat := 0
  Other : Nat := 0
  Shndx : Nat := 0
  Type' : String := ""
  Binding : String := ""
deriving DecidableEq, Repr

/-- `elf.ELF`, the parsed Model. -/
structure ELF where
  Class : String := ""
  Data : String := ""
  Version : Nat := 0
  OSABI : String := ""
  Type' : String := ""
  Machine : String := ""
  Entry : Nat := 0
  Header : ELFHeader := {}
  Sections : List ELFSection := []
  Segments : List ELFSegment := []
  Symbols : List ELFSymbol := []
  StringTable : List Nat := []
deriving DecidableEq, Repr

/-- `elf.ReadCString` on bytes: the bytes strictly before the first zero. -/
def cStringBytes : List Nat → List Nat
  | [] => []
  | b :: rest => if b = 0 then [] else b :: cStringBytes rest

/-- `elf.ReadCString`: reads a null-terminated string. -/
def ReadCString (data : List Nat) : String := bytesToString (cStringBytes data)

/-- `elf.GetELFType`. -/
def GetELFType (t : Nat) : String :=
  if t = 0 then "ET_NONE"
  else if t = 1 then "ET_REL"
  else if t = 2 then "ET_EXEC"
  else if t = 3 then "ET_DYN"
  else if t = 4 then "ET_CORE"
  else "ET_UNKNOWN(" ++ natToDecStr t ++ ")"

/-- `elf.GetMachine`. -/
def GetMachine (m : Nat) : String :=
  if m = 0 then "EM_NONE"
  else if m = 2 then "EM_SPARC"
  else if m = 3 then "EM_386"
  else if m = 8 then "EM_MIPS"
  else if m = 20 then "EM_PPC"
  else if m = 40 then "EM_ARM"
  else if m = 62 then "EM_X86_64"
  else if m = 183 then "EM_AARCH64"
  else "EM_UNKNOWN(0x" ++ hexPadStr 2 m ++ ")"

/-- `elf.GetOSABI`. -/
def GetOSABI (abi : Nat) : String :=
  if abi = 0 then "ELFOSABI_NONE"
  else if abi = 1 then "ELFOSABI_HPUX"
  else if abi = 2 then "ELFOSABI_NETBSD"
  else if abi = 3 then "ELFOSABI_LINUX"
  else if abi = 6 then "ELFOSABI_SOLARIS"
  else if abi = 7 then "ELFOSABI_AIX"
  else if abi = 8 then "ELFOSABI_IRIX"
  else if abi = 9 then "ELFOSABI_FREEBSD"
  else if abi = 12 then "ELFOSABI_OPENBSD"
  else "ELFOSABI_UNKNOWN(0x" ++ hexPadStr 2 abi ++ ")"

/-- `elf.GetSymbolType`. -/
def GetSymbolType (t : Nat) : String :=
  if t = 0 then "STT_NOTYPE"
  else if t = 1 then "STT_OBJECT"
  else if t = 2 then "STT_FUNC"
  else if t = 3 then "STT_SECTION"
  else if t = 4 then "STT_FILE"
  else if t = 10 then "STT_COMMON"
  else if t = 13 then "STT_TLS"
  else "STT_UNKNOWN(" ++ natToDecStr t ++ ")"

/-- `elf.GetSymbolBinding`. -/
def GetSymbolBinding (b : Nat) : String :=
  if b = 0 then "STB_LOCAL"
  else if b = 1 then "STB_GLOBAL"
  else if b = 2 then "STB_WEAK"
  else "STB_UNKNOWN(" ++ natToDecStr b ++ ")"

/-- 100 MB, the table-size safety ceiling used throughout the source. -/
def sizeCeiling : Nat := 100 * 1024 * 1024

/-- `2 ^ 63`: a `uint64` at or above this value becomes a negative `int64`
in the Go casts `int64(offset)`, which makes the subsequent `Seek` fail. -/
def int64Bound : Nat := 9223372036854775808

/-! ## Section parsing (`parseSections`) -/

/-- Decode one raw section header (`shBytes`) exactly as the loop body of
`parseSections` does; `i` is the loop index used for the initial
`fmt.Sprintf("section_%d", i)` name. -/
def decodeSectionHeader (klass : String) (endian : ByteOrder) (i : Nat)
    (shBytes : List Nat) : ELFSection :=
  if klass = "ELF32" then
    { Name := "section_" ++ natToDecStr i
      Type' := endian.Uint32 (sliceBytes shBytes 4 8)
      Flags := endian.Uint32 (sliceBytes shBytes 8 12)
      Addr := endian.Uint32 (sliceBytes shBytes 12 16)
      Offset := endian.Uint32 (sliceBytes shBytes 16 20)
      Size := endian.Uint32 (sliceBytes shBytes 20 24)
      Link := endian.Uint32 (sliceBytes shBytes 24 28)
      Info := endian.Uint32 (sliceBytes shBytes 28 32)
      AddrAlign := endian.Uint32 (sliceBytes shBytes 32 36)
      EntSize := endian.Uint32 (sliceBytes shBytes 36 40) }
  else
    { Name := "section_" ++ natToDecStr i
      Type' := endian.Uint32 (sliceBytes shBytes 4 8)
      Flags := endian.Uint64 (sliceBytes shBytes 8 16)
      Addr := endian.Uint64 (sliceBytes shBytes 16 24)
      Offset := endian.Uint64 (sliceBytes shBytes 24 32)
      Size := endian.Uint64 (sliceBytes shBytes 32 40)
      Link := endian.Uint32 (sliceBytes shBytes 40 44)
      Info := endian.Uint32 (sliceBytes shBytes 44 48)
      AddrAlign := endian.Uint64 (sliceBytes shBytes 48 56)
      EntSize := endian.Uint64 (sliceBytes shBytes 56 64) }

/-- The section-header read loop of `parseSections`: reads `count` headers of
40 (ELF32) or 64 (ELF64) bytes sequentially from position `pos`, failing when
a `Read` starts at or past the end of the input. Returns the sections and the
final reader position. `i` is the running loop index. -/
def readSectionHeaders (input : List Nat) (klass : String) (endian : ByteOrder)
    (i : Nat) (pos : Nat) : Nat → Except String (List ELFSection × Nat)
  | 0 => .ok ([], pos)
  | count + 1 =>
      if input.length ≤ pos then .error "failed to read section header"
      else
        let size := if klass = "ELF32" then 40 else 64
        let shBytes := padTo size (sliceBytes input pos (pos + size))
        let sec := decodeSectionHeader klass endian i shBytes
        match readSectionHeaders input klass endian (i + 1) (min (pos + size) input.length) count with
        | .error e => .error e
        | .ok (rest, p) => .ok (sec :: rest, p)

/-- The name-update pass at the end of `parseSections`: for each section, the
first four bytes of its current name string are reinterpreted as a
string-table offset; if that offset is inside the string table the name is
replaced by the C string found there. -/
def updateSectionNames (endian : ByteOrder) (strTab : List Nat)
    (secs : List ELFSection) : List ELFSection :=
  secs.map fun sec =>
    let nb := stringToBytes sec.Name
    let nameOffset := endian.Uint32 [byteAt nb 0, byteAt nb 1, byteAt nb 2, byteAt nb 3]
    if nameOffset < strTab.length then
      { sec with Name := ReadCString (strTab.drop nameOffset) }
    else sec

/-- `parseSections`: decodes the section-header table declared by
`elf.Header.ShOff64`/`ShNum`, then loads the section-name string table
selected by `ShStrndx`. -/
def parseSections (input : List Nat) (elf : ELF) (endian : ByteOrder) :
    Except String ELF :=
  if elf.Header.ShOff64 = 0 then .ok elf
  else if int64Bound ≤ elf.Header.ShOff64 then .error "failed to seek to sections"
  else if elf.Header.ShNum = 0 ∨ elf.Header.ShNum > 10000 then
    .error ("invalid section count: " ++ natToDecStr elf.Header.ShNum)
  else
    match readSectionHeaders input elf.Class endian 0 elf.Header.ShOff64 elf.Header.ShNum with
    | .error e => .error e
    | .ok (secs, _) =>
        if elf.Header.ShStrndx < elf.Header.ShNum then
          let strSection := secs.getD elf.Header.ShStrndx {}
          if strSection.Offset > 0 ∧ strSection.Size > 0 then
            if strSection.Size > sizeCeiling then
              .error ("string table too large: " ++ natToDecStr strSection.Size)
            else if int64Bound ≤ strSection.Offset then
              .error "failed to seek to string table"
            else
              let strTab := padTo strSection.Size
                (sliceBytes input strSection.Offset (strSection.Offset + strSection.Size))
              .ok { elf with
                      Sections := updateSectionNames endian strTab secs
                      StringTable := strTab }
          else .ok { elf with Sections := secs }
        else .ok { elf with Sections := secs }

/-! ## Symbol parsing (`parseSymbols`) -/

/-- The `.symtab` search: the first section with type 2 (`SHT_SYMTAB`). -/
def findSymtabSection : List ELFSection → Option ELFSection
  | [] => none
  | s :: rest => if s.Type' = 2 then some s else findSymtabSection rest

/-- The symbol string-table search: the first section with type 3
(`SHT_STRTAB`) whose `Link` equals the symbol table's `Info`. -/
def findStrtabSection (symtabInfo : Nat) : List ELFSection → Option ELFSection
  | [] => none
  | s :: rest =>
      if s.Type' = 3 ∧ s.Link = symtabInfo then some s
      else findStrtabSection symtabInfo rest

/-- Decode one raw symbol record exactly as the loop body of `parseSymbols`
does (16 bytes for ELF32, 24 bytes for ELF64). -/
def decodeSymbol (klass : String) (endian : ByteOrder) (strtab : List Nat)
    (symBytes : List Nat) : ELFSymbol :=
  let base : ELFSymbol :=
    if klass = "ELF32" then
      let nameIdx := endian.Uint32 (sliceBytes symBytes 0 4)
      { Name := if nameIdx < strtab.length then ReadCString (strtab.drop nameIdx) else ""
        Value := endian.Uint32 (sliceBytes symBytes 4 8)
        Size := endian.Uint32 (sliceBytes symBytes 8 12)
        Info := byteAt symBytes 12
        Other := byteAt symBytes 13
        Shndx := endian.Uint16 (sliceBytes symBytes 14 16) }
    else
      let nameIdx := endian.Uint32 (sliceBytes symBytes 0 4)
      { Name := if nameIdx < strtab.length then ReadCString (strtab.drop nameIdx) else ""
        Info := byteAt symBytes 4
        Other := byteAt symBytes 5
        Shndx := endian.Uint16 (sliceBytes symBytes 6 8)
        Value := endian.Uint64 (sliceBytes symBytes 8 16)
        Size := endian.Uint64 (sliceBytes symBytes 16 24) }
  { base with
      Type' := GetSymbolType (base.Info % 16)
      Binding := GetSymbolBinding (base.Info / 16 % 16) }

/-- The symbol read loop of `parseSymbols`: the Go code allocates
`make([]Symbol, count)` and then overwrites entries until a `Read` fails, so
a read failure (`break`) leaves the remaining entries at their zero value. -/
def fillSymbols (input : List Nat) (klass : String) (endian : ByteOrder)
    (strtab : List Nat) (pos : Nat) : Nat → List ELFSymbol
  | 0 => []
  | count + 1 =>
      if input.length ≤ pos then List.replicate (count + 1) {}
      else
        let size := if klass = "ELF32" then 16 else 24
        let symBytes := padTo size (sliceBytes input pos (pos + size))
        decodeSymbol klass endian strtab symBytes ::
          fillSymbols input klass endian strtab (min (pos + size) input.length) count

/-- `parseSymbols`: locates the symbol table, bounds-checks its size, derives
the symbol count as `Size / EntSize` silently clamped to 100000, loads the
associated string table, and decodes the records. The reader position after
loading the string table is where the Go code's next `Read` continues. -/
def parseSymbols (input : List Nat) (elf : ELF) (endian : ByteOrder) :
    Except String ELF :=
  match findSymtabSection elf.Sections with
  | none => .ok elf
  | some symtab =>
      if symtab.Size = 0 ∨ symtab.EntSize = 0 then .ok elf
      else if symtab.Size > sizeCeiling then
        .error ("symbol table too large: " ++ natToDecStr symtab.Size)
      else if int64Bound ≤ symtab.Offset then .error "failed to seek to symbols"
      else
        let numSymbols0 := symtab.Size / symtab.EntSize
        let numSymbols := if numSymbols0 > 100000 then 100000 else numSymbols0
        match findStrtabSection symtab.Info elf.Sections with
        | some strtabSection =>
            if strtabSection.Size > 0 then
              if strtabSection.Size > sizeCeiling then
                .error ("string table too large: " ++ natToDecStr strtabSection.Size)
              else if int64Bound ≤ strtabSection.Offset then
                .error "failed to seek to string table"
              else
                let strtab := padTo strtabSection.Size
                  (sliceBytes input strtabSection.Offset
                    (strtabSection.Offset + strtabSection.Size))
                let pos :=
                  if input.length ≤ strtabSection.Offset then strtabSection.Offset
                  else min (strtabSection.Offset + strtabSection.Size) input.length
                .ok { elf with
                        Symbols := fillSymbols input elf.Class endian strtab pos numSymbols }
            else
              .ok { elf with
                      Symbols := fillSymbols input elf.Class endian [] symtab.Offset numSymbols }
        | none =>
            .ok { elf with
                    Symbols := fillSymbols input elf.Class endian [] symtab.Offset numSymbols }

/-! ## `ParseELF` -/

/-- The tail of `ParseELF` after the data-encoding validation: OS/ABI lookup,
header attachment, section parse (fatal) and symbol parse (non-fatal). -/
def finishParse (input : List Nat) (header : ELFHeader) (headerBytes : List Nat)
    (endian : ByteOrder) (elf0 : ELF) : Except String ELF :=
  let elf1 := { elf0 with OSABI := GetOSABI (byteAt headerBytes 7), Header := header }
  match parseSections input elf1 endian with
  | .error e => .error ("failed to parse sections: " ++ e)
  | .ok elf2 =>
      match parseSymbols input elf2 endian with
      | .error _ => .ok elf2
      | .ok elf3 => .ok elf3

/-- `elf.ParseELF`. Reads the 4-byte magic, seeks back, reads the single
`Class` byte (the source never reads the `Data` byte: `header.Data` keeps its
zero value), re-reads a 64-byte header buffer starting at offset 4, decodes
class-dependent fields, validates the data-encoding byte, and finally parses
sections and symbols (symbol errors are swallowed). -/
def ParseELF (input : List Nat) : Except String ELF :=
  if input.length < 4 then .error "failed to read magic"
  else if ¬(byteAt input 0 = 127 ∧ byteAt input 1 = 69 ∧ byteAt input 2 = 76 ∧
            byteAt input 3 = 70) then .error "invalid ELF magic"
  else if input.length < 5 then .error "failed to read class"
  else
    let header : ELFHeader := { Magic := sliceBytes input 0 4, Class := byteAt input 4 }
    let endian : ByteOrder := if header.Data = 2 then .big else .little
    let headerBytes := padTo 64 (sliceBytes input 4 68)
    let classResult : Except String ELF :=
      if header.Class = 1 then
        .ok { Class := "ELF32"
              Type' := GetELFType (endian.Uint16 (sliceBytes headerBytes 16 18))
              Machine := GetMachine (endian.Uint16 (sliceBytes headerBytes 18 20))
              Version := endian.Uint32 (sliceBytes headerBytes 20 24)
              Entry := endian.Uint32 (sliceBytes headerBytes 24 28) }
      else if header.Class = 2 then
        .ok { Class := "ELF64"
              Type' := GetELFType (endian.Uint16 (sliceBytes headerBytes 16 18))
              Machine := GetMachine (endian.Uint16 (sliceBytes headerBytes 18 20))
              Version := endian.Uint32 (sliceBytes headerBytes 20 24)
              Entry := endian.Uint64 (sliceBytes headerBytes 24 32) }
      else .error ("invalid ELF class: " ++ natToDecStr header.Class)
    match classResult with
    | .error e => .error e
    | .ok elf0 =>
        if header.Data = 1 then
          finishParse input header headerBytes endian { elf0 with Data := "Little Endian" }
        else if header.Data = 2 then
          finishParse input header headerBytes endian { elf0 with Data := "Big Endian" }
        else .error ("invalid data encoding: " ++ natToDecStr header.Data)

/-! ## nm symbol lister (`Projects/Binutils/03_nm.go`) -/

/-- `toUpper` from `03_nm.go` (on a byte). -/
def nmToUpper (c : Nat) : Nat := if 97 ≤ c ∧ c ≤ 122 then c - 32 else c

/-- `toLower` from `03_nm.go` (on a byte). -/
def nmToLower (c : Nat) : Nat := if 65 ≤ c ∧ c ≤ 90 then c + 32 else c

/-- The ordering used by `sort.Slice(symbols, ... Value < Value)`: values in
non-decreasing order. -/
def symValueLE (a b : ELFSymbol) : Prop := a.Value ≤ b.Value

instance : DecidableRel symValueLE := fun a b => Nat.decLe a.Value b.Value

instance : IsTotal ELFSymbol symValueLE := ⟨fun a b => Nat.le_total a.Value b.Value⟩

instance : IsTrans ELFSymbol symValueLE := ⟨fun _ _ _ h1 h2 => Nat.le_trans h1 h2⟩

/-- The `sort.Slice` call in `listSymbols`: `sort.Slice` guarantees only a
permutation ordered by the comparison, which insertion sort by value
delivers. -/
def sortSymbolsByValue (l : List ELFSymbol) : List ELFSymbol :=
  List.insertionSort symValueLE l

/-- The type character computed by the `switch`/binding logic in
`listSymbols`. -/
def nmTypeChar (sym : ELFSymbol) : Nat :=
  let t : Nat :=
    if sym.Type' = "STT_NOTYPE" then 85
    else if sym.Type' = "STT_OBJECT" then 68
    else if sym.Type' = "STT_FUNC" then 84
    else if sym.Type' = "STT_SECTION" then 83
    else if sym.Type' = "STT_FILE" then 65
    else 63
  if sym.Binding = "STB_GLOBAL" then nmToUpper t
  else if sym.Binding = "STB_WEAK" then
    if t = 85 then 119 else nmToLower t
  else t

/-- One output line of `listSymbols` (including the trailing newline):
zero-value `STT_NOTYPE` symbols print a blank 17-character address field,
otherwise a 16-digit (ELF64) or 8-digit (ELF32, value truncated to `uint32`)
zero-padded lowercase hex address. -/
def nmFormatLine (klass : String) (sym : ELFSymbol) : String :=
  let c := String.mk [Char.ofNat (nmTypeChar sym)]
  if sym.Value = 0 ∧ sym.Type' = "STT_NOTYPE" then
    "                 " ++ c ++ " " ++ sym.Name ++ "\n"
  else if klass = "ELF64" then
    hexPadStr 16 sym.Value ++ " " ++ c ++ " " ++ sym.Name ++ "\n"
  else
    hexPadStr 8 (sym.Value % 4294967296) ++ " " ++ c ++ " " ++ sym.Name ++ "\n"

/-- The symbols `listSymbols` prints, in print order: sorted by value, with
unnamed symbols skipped. -/
def nmPrintedSymbols (elfFile : ELF) : List ELFSymbol :=
  (sortSymbolsByValue elfFile.Symbols).filter fun s => s.Name ≠ ""

/-- `listSymbols` from `03_nm.go`, as the list of lines it prints. -/
def listSymbols (elfFile : ELF) : List String :=
  if elfFile.Symbols.length = 0 then []
  else (nmPrintedSymbols elfFile).map (nmFormatLine elfFile.Class)

/-! ## Assembler (`As`, second compilation unit of `03_nm.go`) -/

/-- `Instruction` from the assembler. -/
structure Instruction where
  Opcode : String := ""
  Operands : List String := []
  Label : String := ""
deriving DecidableEq, Repr

/-- The opcode switch in `generateCode`: a total one-byte encoding with
default byte `0x90` (NOP). -/
def encodeOpcode (op : String) : Nat :=
  if op = "ret" then 195
  else if op = "nop" then 144
  else 144

/-- `generateCode`: appends one encoded byte per instruction. -/
def generateCode (instructions : List Instruction) : List Nat :=
  instructions.map fun inst => encodeOpcode inst.Opcode

/-- The `for i, inst := range instructions` loop of `generateSymbols`,
carrying the running index `i`. -/
def generateSymbolsGo (i : Nat) : List Instruction → List ELFSymbol
  | [] => []
  | inst :: rest =>
      if inst.Label ≠ "" then
        { Name := inst.Label
          Value := i * 4
          Size := 0
          Info := 2
          Type' := "STT_FUNC"
          Binding := "STB_LOCAL" } :: generateSymbolsGo (i + 1) rest
      else generateSymbolsGo (i + 1) rest

/-- `generateSymbols`: one local `STT_FUNC` symbol per labelled instruction,
valued at 4 bytes per instruction index. -/
def generateSymbols (instructions : List Instruction) : List ELFSymbol :=
  generateSymbolsGo 0 instructions

/-! ## Linker (`Projects/Binutils/12_ld.go`)

A Go `map[string]*T` is modelled as an association list in first-insertion
order; lookup and in-place update match map semantics, and the final
`for ... range` collection (whose order Go leaves unspecified) is modelled as
the insertion-order value list. -/

/-- Map lookup `m[name]`. -/
def assocFind {α : Type} (name : String) : List (String × α) → Option α
  | [] => none
  | (k, v) :: rest => if k = name then some v else assocFind name rest

/-- Map update `m[name] = v` for a key already present (replaces the first,
and with distinct keys the only, binding). -/
def assocSet {α : Type} (name : String) (v : α) : List (String × α) → List (String × α)
  | [] => []
  | (k, w) :: rest => if k = name then (k, v) :: rest else (k, w) :: assocSet name v rest

/-- One iteration of the `resolveSymbols` loop: a defined symbol replaces a
previously recorded `STT_NOTYPE` entry of the same name; otherwise the
existing entry wins; an unseen name is inserted. -/
def resolveSymbolsStep (acc : List (String × ELFSymbol)) (sym : ELFSymbol) :
    List (String × ELFSymbol) :=
  match assocFind sym.Name acc with
  | some existing =>
      if sym.Type' ≠ "STT_NOTYPE" ∧ existing.Type' = "STT_NOTYPE" then
        assocSet sym.Name sym acc
      else acc
  | none => acc ++ [(sym.Name, sym)]

/-- The `symbolMap` built by `resolveSymbols`. -/
def resolveSymbolsMap (symbols : List ELFSymbol) : List (String × ELFSymbol) :=
  symbols.foldl resolveSymbolsStep []

/-- `resolveSymbols`: the resolved symbols collected from the map. -/
def resolveSymbols (symbols : List ELFSymbol) : List ELFSymbol :=
  (resolveSymbolsMap symbols).map Prod.snd

/-- One iteration of the `mergeSections` loop: a section whose name was seen
before has its bytes appended and its (uint64) size added to the recorded
section; an unseen name is inserted. -/
def mergeSectionsStep (acc : List (String × ELFSection)) (sec : ELFSection) :
    List (String × ELFSection) :=
  match assocFind sec.Name acc with
  | some existing =>
      assocSet sec.Name
        { existing with
            Data := existing.Data ++ sec.Data
            Size := (existing.Size + sec.Size) % 18446744073709551616 } acc
  | none => acc ++ [(sec.Name, sec)]

/-- The `sectionMap` built by `mergeSections`. -/
def mergeSectionsMap (sections : List ELFSection) : List (String × ELFSection) :=
  sections.foldl mergeSectionsStep []

/-- `mergeSections`: the merged sections collected from the map. -/
def mergeSections (sections : List ELFSection) : List ELFSection :=
  (mergeSectionsMap sections).map Prod.snd

/-! ## Archive codec (`Projects/Binutils/06_ar.go`)

Archive member names are re-read bytewise from the fixed 16-byte header
field, so they are modelled as byte lists. -/

/-- `ArchiveHeader`. Integer header fields are Go `int64`/`int`, hence
`Int`. -/
structure ArchiveHeader where
  Name : List Nat := []
  Date : Int := 0
  UID : Int := 0
  GID : Int := 0
  Mode : Int := 0
  Size : Int := 0
  EndChar : List Nat := [0, 0]
deriving DecidableEq, Repr

/-- `ArchiveMember`. -/
structure ArchiveMember where
  Header : ArchiveHeader := {}
  Data : List Nat := []
deriving DecidableEq, Repr

/-- The space/tab test of `trimSpace`. -/
def isArSpace (b : Nat) : Bool := b = 32 || b = 9

/-- `trimSpace` from `06_ar.go`: strips leading and trailing spaces and
tabs. -/
def trimSpace (s : List Nat) : List Nat :=
  ((s.dropWhile isArSpace).reverse.dropWhile isArSpace).reverse

/-- `padString`: truncates to `length` bytes and pads with spaces. -/
def padString (s : List Nat) (length : Nat) : List Nat :=
  s.take length ++ List.replicate (length - s.length) 32

/-- Decimal digit bytes, least significant first, driven by an explicit fuel
bound (structural recursion, so concrete archive bytes evaluate in the
kernel). -/
def decDigitsRevAux : Nat → Nat → List Nat
  | _, 0 => []
  | 0, _ + 1 => []
  | fuel + 1, n + 1 => (48 + (n + 1) % 10) :: decDigitsRevAux fuel ((n + 1) / 10)

/-- Decimal digit bytes of `n`, least significant first (`n` is always
enough fuel). -/
def decDigitsRevBytes (n : Nat) : List Nat := decDigitsRevAux n n

/-- `fmt.Sprintf("%d", n)` as bytes, for a natural number. -/
def natToDecBytes (n : Nat) : List Nat :=
  if n = 0 then [48] else (decDigitsRevBytes n).reverse

/-- Octal digit bytes, least significant first, fuel-driven like
`decDigitsRevAux`. -/
def octDigitsRevAux : Nat → Nat → List Nat
  | _, 0 => []
  | 0, _ + 1 => []
  | fuel + 1, n + 1 => (48 + (n + 1) % 8) :: octDigitsRevAux fuel ((n + 1) / 8)

/-- Octal digit bytes of `n`, least significant first. -/
def octDigitsRevBytes (n : Nat) : List Nat := octDigitsRevAux n n

/-- `fmt.Sprintf("%o", n)` as bytes, for a natural number. -/
def natToOctBytes (n : Nat) : List Nat :=
  if n = 0 then [48] else (octDigitsRevBytes n).reverse

/-- `fmt.Sprintf("%d", i)` as bytes, for a Go signed integer. -/
def intToDecBytes (i : Int) : List Nat :=
  if i < 0 then 45 :: natToDecBytes i.natAbs else natToDecBytes i.toNat

/-- `fmt.Sprintf("%o", i)` as bytes, for a Go signed integer. -/
def intToOctBytes (i : Int) : List Nat :=
  if i < 0 then 45 :: natToOctBytes i.natAbs else natToOctBytes i.toNat

/-- `fmt.Sprintf("%d", i)` as a string (used in error messages). -/
def intToDecStr (i : Int) : String :=
  if i < 0 then "-" ++ natToDecStr i.natAbs else natToDecStr i.toNat

/-- The digit run accepted by `strconv.ParseInt`: nonempty, all `0`-`9`;
returns its value. -/
def parseDecDigits (ds : List Nat) : Option Nat :=
  if ds.isEmpty then none
  else if ds.all (fun d => 48 ≤ d && d ≤ 57) then
    some (ds.foldl (fun a d => a * 10 + (d - 48)) 0)
  else none

/-- `strconv.ParseInt(s, 10, 64)` with the source's error handling folded in:
callers discard the error, so a syntax error yields 0 and an out-of-range
value yields the clamped `MinInt64`/`MaxInt64` that `ParseInt` returns
alongside `ErrRange`. -/
def parseInt64Go (s : List Nat) : Int :=
  let (neg, digits) :=
    match s with
    | [] => (false, ([] : List Nat))
    | c :: rest => if c = 45 then (true, rest) else if c = 43 then (false, rest) else (false, s)
  match parseDecDigits digits with
  | none => 0
  | some v =>
      if neg then
        if (v : Int) > 9223372036854775808 then -9223372036854775808 else -(v : Int)
      else
        if (v : Int) > 9223372036854775807 then 9223372036854775807 else (v : Int)

/-- `formatHeader`: the fixed 60-byte member header. -/
def formatHeader (h : ArchiveHeader) : List Nat :=
  padString h.Name 16 ++
  padString (intToDecBytes h.Date) 12 ++
  padString (intToDecBytes h.UID) 6 ++
  padString (intToDecBytes h.GID) 6 ++
  padString (intToOctBytes h.Mode) 8 ++
  padString (intToDecBytes h.Size) 10 ++
  [96, 10]

/-- Header parsing as in the `readArchive` loop (fields that drop their parse
errors use `parseInt64Go`; `parseIntSafe`/`parseIntOctal` both delegate to
`strconv` base-10 parsing in the source). -/
def parseARHeader (headerBytes : List Nat) : ArchiveHeader :=
  { Name := trimSpace (sliceBytes headerBytes 0 16)
    Date := parseInt64Go (trimSpace (sliceBytes headerBytes 16 28))
    UID := parseInt64Go (trimSpace (sliceBytes headerBytes 28 34))
    GID := parseInt64Go (trimSpace (sliceBytes headerBytes 34 40))
    Mode := parseInt64Go (trimSpace (sliceBytes headerBytes 40 48))
    Size := parseInt64Go (trimSpace (sliceBytes headerBytes 48 58))
    EndChar := sliceBytes headerBytes 58 60 }

/-- `"!<arch>\n"`. -/
def arMagicBytes : List Nat := [33, 60, 97, 114, 99, 104, 62, 10]

/-- The member-reading loop of `readArchive`: stops cleanly when fewer than
60 header bytes remain, aborts on a negative or over-ceiling size, reads
`size` payload bytes (`io.ReadFull`: failing when fewer remain) and skips one
pad byte after an odd-sized payload. -/
def readMembers (b : List Nat) : Except String (List ArchiveMember) :=
  if b.length < 60 then .ok []
  else
    let header := parseARHeader (b.take 60)
    if header.Size < 0 ∨ header.Size > (sizeCeiling : Int) then
      .error ("invalid member size: " ++ intToDecStr header.Size)
    else
      let sz := header.Size.toNat
      let rest0 := b.drop 60
      if rest0.length < sz then .error "failed to read member data"
      else
        let data := rest0.take sz
        let rest1 := rest0.drop sz
        let rest2 := if sz % 2 ≠ 0 then rest1.drop 1 else rest1
        match readMembers rest2 with
        | .error e => .error e
        | .ok ms => .ok ({ Header := header, Data := data } :: ms)
termination_by b.length
decreasing_by
  split <;> simp only [List.length_drop] <;> omega

/-- `readArchive`: validates the 8-byte magic (a short read leaves the fresh
buffer zero-padded, which then fails the comparison) and reads the members. -/
def readArchive (b : List Nat) : Except String (List ArchiveMember) :=
  if b.length = 0 then .error "failed to read magic"
  else if padTo 8 (b.take 8) ≠ arMagicBytes then .error "invalid archive magic"
  else readMembers (b.drop 8)

/-- One member as written by the `writeArchive` loop: header, payload and one
`'\n'` pad byte when the payload length is odd. -/
def encodeMember (m : ArchiveMember) : List Nat :=
  formatHeader m.Header ++ m.Data ++ (if m.Data.length % 2 ≠ 0 then [10] else [])

/-- `writeArchive`: magic then each member, in the iteration order of the Go
`map[string]*ArchiveMember` (the list argument stands for that enumeration
order). -/
def writeArchive (members : List ArchiveMember) : List Nat :=
  arMagicBytes ++ (members.map encodeMember).flatten

/-! ## Claim C10: `ReadCString` -/

/-- `cStringBytes` never returns more bytes than it was given. -/
theorem cStringBytes_length_le (l : List Nat) :
    (cStringBytes l).length ≤ l.length := by
  induction l with
  | nil => exact Nat.le_refl 0
  | cons b rest ih =>
      by_cases hb : b = 0
      · simp [cStringBytes, hb]
      · simp only [cStringBytes, hb, if_false, List.length_cons]
        exact Nat.succ_le_succ ih

/-- `cStringBytes` is exactly `takeWhile (· ≠ 0)`. -/
theorem cStringBytes_eq_takeWhile (l : List Nat) :
    cStringBytes l = l.takeWhile (fun b => b ≠ 0) := by
  induction l with
  | nil => rfl
  | cons b rest ih =>
      by_cases hb : b = 0
      · subst hb; simp [cStringBytes, List.takeWhile]
      · simp [cStringBytes, List.takeWhile, hb, ih]

/-- C10 (confirmed): `ReadCString` is total on every byte slice and never
reads past its end: it returns exactly the bytes strictly before the first
zero byte, its byte output is never longer than the input, and on a slice
with no zero byte it returns the whole slice as the string. -/
theorem ReadCString_spec (data : List Nat) :
    ReadCString data = bytesToString (data.takeWhile fun b => b ≠ 0) ∧
    (cStringBytes data).length ≤ data.length ∧
    ((∀ b ∈ data, b ≠ 0) → ReadCString data = bytesToString data) := by
  refine ⟨by rw [ReadCString, cStringBytes_eq_takeWhile], ?_, ?_⟩
  · exact cStringBytes_length_le data
  · intro hall
    rw [ReadCString, cStringBytes_eq_takeWhile, List.takeWhile_eq_self_iff.mpr]
    intro b hb
    simpa using hall b hb

/-- Witness for `ReadCString_spec` at the zero-free slice `"hi"`. -/
theorem ReadCString_spec_witness :
    ReadCString [104, 105] = bytesToString [104, 105] :=
  (ReadCString_spec [104, 105]).2.2 (by decide)

/-! ## Claim C9: assembler symbol values vs code offsets -/

/-- Two labelled instructions: `start: nop` and `done: ret`. -/
def asmDemo : List Instruction :=
  [{ Opcode := "nop", Operands := [], Label := "start" },
   { Opcode := "ret", Operands := [], Label := "done" }]

/-- C9 counterexample: the symbol for the second labelled instruction has
value 4, but that instruction's byte offset within the generated code is 1
(every instruction encodes to exactly one byte), so the claimed
"value equals byte offset within the code bytes" fails. -/
theorem generateSymbols_offset_counterexample :
    ((generateSymbols asmDemo).getD 1 {}).Value = 4 ∧
    (generateCode (asmDemo.take 1)).length = 1 ∧
    ((generateSymbols asmDemo).getD 1 {}).Value ≠ (generateCode (asmDemo.take 1)).length := by
  decide

/-- The symbol list described by the amended claim: one local `STT_FUNC`
symbol per labelled instruction whose value is four times the instruction's
index (a fixed 4-bytes-per-instruction stride, not an offset into the
generated code). -/
def generateSymbolsSpec (instructions : List Instruction) : List ELFSymbol :=
  instructions.enum.filterMap fun p =>
    if p.2.Label = "" then none
    else some { Name := p.2.Label
                Value := 4 * p.1
                Size := 0
                Info := 2
                Type' := "STT_FUNC"
                Binding := "STB_LOCAL" }

/-- The assembler loop agrees with the indexed description at every starting
index. -/
theorem generateSymbolsGo_eq_spec (instructions : List Instruction) (i : Nat) :
    generateSymbolsGo i instructions =
      (instructions.enumFrom i).filterMap fun p =>
        if p.2.Label = "" then none
        else some { Name := p.2.Label
                    Value := p.1 * 4
                    Size := 0
                    Info := 2
                    Type' := "STT_FUNC"
                    Binding := "STB_LOCAL" } := by
  induction instructions generalizing i with
  | nil => rfl
  | cons inst rest ih =>
      by_cases hl : inst.Label = ""
      · simp [generateSymbolsGo, List.enumFrom, hl, ih]
      · simp [generateSymbolsGo, List.enumFrom, hl, ih]

/-- C9 (amended, proved): each labelled instruction at index `i` yields a
local `STT_FUNC` symbol of value `4 * i`; the opcode table is total, encodes
exactly one byte per instruction, and maps every opcode other than
`ret`/`nop` to the default byte `0x90`. -/
theorem generateSymbols_amended (instructions : List Instruction) :
    generateSymbols instructions = generateSymbolsSpec instructions ∧
    (generateCode instructions).length = instructions.length ∧
    (∀ op, op ≠ "ret" → op ≠ "nop" → encodeOpcode op = 144) := by
  refine ⟨?_, by simp [generateCode], fun op h1 h2 => by simp [encodeOpcode, h1, h2]⟩
  rw [generateSymbols, generateSymbolsGo_eq_spec, generateSymbolsSpec, List.enum]
  exact List.filterMap_congr fun p _ => by
    by_cases hl : p.2.Label = "" <;> simp [hl, Nat.mul_comm]

/-- Witness for `generateSymbols_amended` at `asmDemo` and opcode `"jmp"`. -/
theorem generateSymbols_amended_witness :
    encodeOpcode "jmp" = 144 :=
  (generateSymbols_amended asmDemo).2.2 "jmp" (by decide) (by decide)

/-- Decidable equality for `Except` results, so that concrete parser runs
can be checked by `decide`. -/
instance exceptDecEq {e a : Type} [DecidableEq e] [DecidableEq a] :
    DecidableEq (Except e a) := fun x y =>
  match x, y with
  | .error e1, .error e2 =>
      if h : e1 = e2 then .isTrue (by rw [h]) else .isFalse (fun hh => by cases hh; exact h rfl)
  | .ok v1, .ok v2 =>
      if h : v1 = v2 then .isTrue (by rw [h]) else .isFalse (fun hh => by cases hh; exact h rfl)
  | .error _, .ok _ => .isFalse (fun hh => Except.noConfusion hh)
  | .ok _, .error _ => .isFalse (fun hh => Except.noConfusion hh)

/-! ## Claims C1 and C2: `ParseELF` never succeeds

The source reads only `Magic` and `Class` into the header; `header.Data` is
never assigned, so the data-encoding validation compares the zero value and
fails on every input. -/

/-- The exact byte stream of the repository's own `TestParseELF`: a valid
ELF64 little-endian header declaring 0 sections and 0 symbols. -/
def elfTestBytes : List Nat :=
  [127, 69, 76, 70,
   2,
   1,
   1,
   0,
   0, 0, 0, 0, 0, 0, 0,
   2, 0,
   62, 0,
   1, 0, 0, 0,
   0, 0, 0, 0, 0, 0, 0, 0,
   0, 0, 0, 0, 0, 0, 0, 0,
   0, 0, 0, 0, 0, 0, 0, 0,
   0, 0, 0, 0,
   64, 0,
   56, 0,
   0, 0,
   64, 0,
   0, 0,
   0, 0]

/-- `ParseELF` rejects every input: after the magic and class checks the
unassigned `header.Data` (zero) fails the data-encoding validation. -/
theorem ParseELF_always_fails (input : List Nat) (m : ELF) :
    ParseELF input ≠ .ok m := by
  intro h
  unfold ParseELF at h
  split at h
  · exact Except.noConfusion h
  · split at h
    · exact Except.noConfusion h
    · split at h
      · exact Except.noConfusion h
      · by_cases hc1 : byteAt input 4 = 1
        · simp [hc1] at h
        · by_cases hc2 : byteAt input 4 = 2
          · simp [hc1, hc2] at h
          · simp [hc1, hc2] at h

/-- C1 (code bug): on the repository test's own valid ELF64-LE stream, which
declares 0 sections and 0 symbols and which the test requires to parse
successfully, `ParseELF` returns the hard error `invalid data encoding: 0`
instead of a Model — and no input whatsoever can make `ParseELF` succeed. -/
theorem ParseELF_roundtrip_code_bug :
    ParseELF elfTestBytes = .error "invalid data encoding: 0" ∧
    ∀ input m, ParseELF input ≠ .ok m :=
  ⟨by decide, ParseELF_always_fails⟩

/-- A logical ELF64 header (type `ET_EXEC`, machine x86_64, version 1, entry
`0x1000`) encoded little-endian: data-encoding byte 1, multi-byte fields
least-significant-byte first. -/
def elfHeaderLEBytes : List Nat :=
  [127, 69, 76, 70, 2, 1, 1, 0, 0, 0, 0, 0, 0, 0, 0, 0,
   2, 0,
   62, 0,
   1, 0, 0, 0,
   0, 16, 0, 0, 0, 0, 0, 0,
   0, 0, 0, 0, 0, 0, 0, 0,
   0, 0, 0, 0, 0, 0, 0, 0,
   0, 0, 0, 0,
   64, 0, 56, 0, 0, 0, 64, 0, 0, 0, 0, 0]

/-- The identical logical header encoded big-endian: data-encoding byte 2,
multi-byte fields most-significant-byte first. -/
def elfHeaderBEBytes : List Nat :=
  [127, 69, 76, 70, 2, 2, 1, 0, 0, 0, 0, 0, 0, 0, 0, 0,
   0, 2,
   0, 62,
   0, 0, 0, 1,
   0, 0, 0, 0, 0, 0, 16, 0,
   0, 0, 0, 0, 0, 0, 0, 0,
   0, 0, 0, 0, 0, 0, 0, 0,
   0, 0, 0, 0,
   0, 64, 0, 56, 0, 0, 0, 64, 0, 0, 0, 0]

/-- C2 (code bug): the parser never reads the data-encoding byte
(`header.Data` keeps its zero value), so it selects no byte order from the
input: both the little-endian and the big-endian encoding of the same
logical header are rejected with `invalid data encoding: 0`, and neither
parse yields any Model field values at all. -/
theorem ParseELF_endianness_code_bug :
    ParseELF elfHeaderLEBytes = .error "invalid data encoding: 0" ∧
    ParseELF elfHeaderBEBytes = .error "invalid data encoding: 0" := by
  constructor <;> decide

/-! ## Claim C3: safety ceilings -/

/-- The symbol fill loop always produces exactly the allocated count
(`make([]Symbol, count)`), whether records were read or left at their zero
value. -/
theorem fillSymbols_length (input : List Nat) (klass : String) (endian : ByteOrder)
    (strtab : List Nat) (n : Nat) : ∀ pos, (fillSymbols input klass endian strtab pos n).length = n := by
  induction n with
  | zero => intro pos; rfl
  | succ k ih =>
      intro pos
      rw [fillSymbols]
      split
      · exact List.length_replicate _ _
      · simp only [List.length_cons, ih]

/-- An ELF whose symbol table declares 100001 24-byte symbols within the
100 MB size ceiling. -/
def elfSymTruncDemo : ELF :=
  { Class := "ELF32", Sections := [{ Type' := 2, Size := 1600016, EntSize := 16, Offset := 0 }] }

/-- C3 counterexample: a declared symbol count of `1600016 / 16 = 100001`
exceeds the 100,000 ceiling, yet `parseSymbols` does not fail: it silently
truncates the count and succeeds with exactly 100,000 (zero-valued)
symbols. -/
theorem parseSymbols_truncation_counterexample :
    (1600016 / 16 : Nat) = 100001 ∧
    parseSymbols [] elfSymTruncDemo .little =
      .ok { elfSymTruncDemo with Symbols := List.replicate 100000 ({} : ELFSymbol) } ∧
    (List.replicate 100000 ({} : ELFSymbol)).length = 100000 :=
  ⟨by decide, rfl, List.length_replicate _ _⟩

/-- C3 (amended, proved): the section-count ceiling (10,000) and the
100 MB byte-size ceilings on the symbol table and its string table are hard
errors raised before the corresponding allocation, but a declared symbol
count above 100,000 is not an error: it is silently clamped to 100,000 and
the symbol parse succeeds with exactly 100,000 allocated entries. -/
theorem parse_limit_amended :
    (∀ (input : List Nat) (elf : ELF) (endian : ByteOrder),
       elf.Header.ShOff64 ≠ 0 → elf.Header.ShOff64 < int64Bound →
       10000 < elf.Header.ShNum →
       parseSections input elf endian =
         .error ("invalid section count: " ++ natToDecStr elf.Header.ShNum)) ∧
    (∀ (input : List Nat) (elf : ELF) (endian : ByteOrder) (s : ELFSection),
       findSymtabSection elf.Sections = some s →
       s.Size ≠ 0 → s.EntSize ≠ 0 → sizeCeiling < s.Size →
       parseSymbols input elf endian =
         .error ("symbol table too large: " ++ natToDecStr s.Size)) ∧
    (∀ (input : List Nat) (elf : ELF) (endian : ByteOrder) (s t : ELFSection),
       findSymtabSection elf.Sections = some s →
       s.Size ≠ 0 → s.EntSize ≠ 0 → s.Size ≤ sizeCeiling → s.Offset < int64Bound →
       findStrtabSection s.Info elf.Sections = some t →
       0 < t.Size → sizeCeiling < t.Size →
       parseSymbols input elf endian =
         .error ("string table too large: " ++ natToDecStr t.Size)) ∧
    (∀ (input : List Nat) (elf : ELF) (endian : ByteOrder) (s : ELFSection),
       findSymtabSection elf.Sections = some s →
       s.Size ≠ 0 → s.EntSize ≠ 0 → s.Size ≤ sizeCeiling → s.Offset < int64Bound →
       100000 < s.Size / s.EntSize →
       findStrtabSection s.Info elf.Sections = none →
       parseSymbols input elf endian =
         .ok { elf with Symbols := fillSymbols input elf.Class endian [] s.Offset 100000 } ∧
       (fillSymbols input elf.Class endian [] s.Offset 100000).length = 100000) := by
  refine ⟨?_, ?_, ?_, ?_⟩
  · intro input elf endian h1 h2 h3
    rw [parseSections, if_neg h1, if_neg (by omega), if_pos (Or.inr h3)]
  · intro input elf endian s hfind hsz hent hceil
    rw [parseSymbols, hfind]
    dsimp only
    rw [if_neg (by tauto), if_pos hceil]
  · intro input elf endian s t hfind hsz hent hsle hoff hstr ht0 htceil
    rw [parseSymbols, hfind]
    dsimp only
    rw [if_neg (by tauto), if_neg (by omega), if_neg (by omega), hstr]
    dsimp only
    rw [if_pos ht0, if_pos htceil]
  · intro input elf endian s hfind hsz hent hsle hoff hcount hstr
    refine ⟨?_, fillSymbols_length _ _ _ _ _ _⟩
    rw [parseSymbols, hfind]
    dsimp only
    rw [if_neg (by tauto), if_neg (by omega), if_neg (by omega), hstr]
    dsimp only
    rw [if_pos hcount]

/-- A header declaring 10001 sections. -/
def elfC3a : ELF := { Header := { ShOff64 := 64, ShNum := 10001 } }

/-- A symbol table declaring a byte size one over the 100 MB ceiling. -/
def elfC3b : ELF := { Sections := [{ Type' := 2, Size := 104857601, EntSize := 24 }] }

/-- A symbol table within bounds whose linked string table declares a byte
size one over the 100 MB ceiling. -/
def elfC3c : ELF :=
  { Sections := [{ Type' := 2, Size := 24, EntSize := 24, Offset := 0, Info := 5 },
                 { Type' := 3, Link := 5, Size := 104857601 }] }

/-- Witness for `parse_limit_amended` on concrete over-ceiling inputs. -/
theorem parse_limit_amended_witness :
    parseSections [] elfC3a .little = .error ("invalid section count: " ++ natToDecStr 10001) ∧
    parseSymbols [] elfC3b .little = .error ("symbol table too large: " ++ natToDecStr 104857601) ∧
    parseSymbols [] elfC3c .little = .error ("string table too large: " ++ natToDecStr 104857601) ∧
    parseSymbols [] elfSymTruncDemo .little =
      .ok { elfSymTruncDemo with
              Symbols := fillSymbols [] elfSymTruncDemo.Class .little [] 0 100000 } :=
  ⟨parse_limit_amended.1 [] elfC3a .little (by decide) (by decide) (by decide),
   parse_limit_amended.2.1 [] elfC3b .little { Type' := 2, Size := 104857601, EntSize := 24 }
     (by decide) (by decide) (by decide) (by decide),
   parse_limit_amended.2.2.1 [] elfC3c .little
     { Type' := 2, Size := 24, EntSize := 24, Offset := 0, Info := 5 }
     { Type' := 3, Link := 5, Size := 104857601 }
     (by decide) (by decide) (by decide) (by decide) (by decide) (by decide) (by decide) (by decide),
   (parse_limit_amended.2.2.2 [] elfSymTruncDemo .little
     { Type' := 2, Size := 1600016, EntSize := 16, Offset := 0 }
     (by decide) (by decide) (by decide) (by decide) (by decide) (by decide) (by decide)).1⟩

/-! ## Association-map lemmas for the linker -/

/-- The keys of an association map. -/
def assocKeys {α : Type} (l : List (String × α)) : List String := l.map Prod.fst

/-- Updating an existing key rewrites that binding's value. -/
theorem assocFind_assocSet_same {α : Type} (name : String) (v : α) :
    ∀ l : List (String × α), (assocFind name l).isSome →
      assocFind name (assocSet name v l) = some v := by
  intro l
  induction l with
  | nil => intro h; simp [assocFind] at h
  | cons p rest ih =>
      intro h
      by_cases hk : p.1 = name
      · simp [assocFind, assocSet, hk]
      · simp only [assocFind, assocSet, hk, if_false] at h ⊢
        exact ih h

/-- Updating one key leaves every other key's binding unchanged. -/
theorem assocFind_assocSet_other {α : Type} (k name : String) (v : α) (hk : k ≠ name) :
    ∀ l : List (String × α), assocFind name (assocSet k v l) = assocFind name l := by
  intro l
  induction l with
  | nil => rfl
  | cons p rest ih =>
      by_cases hp : p.1 = k
      · simp [assocFind, assocSet, hp, hk]
      · simp [assocFind, assocSet, hp, ih]

/-- Lookup after appending a single binding at the end. -/
theorem assocFind_append_single {α : Type} (name k : String) (v : α) :
    ∀ l : List (String × α),
      assocFind name (l ++ [(k, v)]) =
        match assocFind name l with
        | some w => some w
        | none => if k = name then some v else none := by
  intro l
  induction l with
  | nil => rfl
  | cons p rest ih =>
      by_cases hp : p.1 = name
      · simp [assocFind, hp]
      · simp [assocFind, hp, ih]

/-- Updating a value never changes the key list. -/
theorem assocKeys_assocSet {α : Type} (k : String) (v : α) :
    ∀ l : List (String × α), assocKeys (assocSet k v l) = assocKeys l := by
  intro l
  induction l with
  | nil => rfl
  | cons p rest ih =>
      by_cases hp : p.1 = k
      · simp [assocKeys, assocSet, hp]
      · simp only [assocKeys, assocSet, hp, if_false, List.map_cons]
        simpa [assocKeys] using ih

/-- A key is absent exactly when lookup fails. -/
theorem assocFind_eq_none_iff {α : Type} (name : String) :
    ∀ l : List (String × α), assocFind name l = none ↔ name ∉ assocKeys l := by
  intro l
  induction l with
  | nil => simp [assocFind, assocKeys]
  | cons p rest ih =>
      by_cases hp : p.1 = name
      · simp [assocFind, assocKeys, hp]
      · simp [assocFind, assocKeys, hp, ih, fun h : name = p.1 => hp h.symm]
        intro h
        exact fun hh => hp hh.symm

/-! ## Claim C4: linker symbol resolution -/

/-- The conflict rule of `resolveSymbols`, applied to the recorded symbol and
an incoming one: a defined incoming symbol replaces a recorded
`STT_NOTYPE`, otherwise the recorded symbol stays. -/
def specResolveRule (cur incoming : ELFSymbol) : ELFSymbol :=
  if incoming.Type' ≠ "STT_NOTYPE" ∧ cur.Type' = "STT_NOTYPE" then incoming else cur

/-- The symbol the claim predicts for a given name: fold the conflict rule
over that name's occurrences in input order, starting from the first. -/
def specResolveOne (name : String) (symbols : List ELFSymbol) : Option ELFSymbol :=
  (symbols.filter (fun s => s.Name = name)).foldl
    (fun cur s =>
      match cur with
      | none => some s
      | some c => some (specResolveRule c s)) none


/-- One loop iteration, observed at the incoming symbol's own name: it
applies the conflict rule to the recorded binding. -/
theorem resolve_step_same (acc : List (String × ELFSymbol)) (s : ELFSymbol) :
    assocFind s.Name (resolveSymbolsStep acc s) =
      match assocFind s.Name acc with
      | none => some s
      | some c => some (specResolveRule c s) := by
  rw [resolveSymbolsStep]
  cases hfind : assocFind s.Name acc with
  | none =>
      dsimp only
      rw [assocFind_append_single, hfind]
      simp
  | some c =>
      dsimp only
      split
      · rename_i hcond
        rw [assocFind_assocSet_same s.Name s acc (by rw [hfind]; rfl), specResolveRule,
          if_pos hcond]
      · rename_i hcond
        rw [hfind, specResolveRule, if_neg hcond]

/-- One loop iteration, observed at any other name: the binding is
untouched. -/
theorem resolve_step_other (acc : List (String × ELFSymbol)) (s : ELFSymbol)
    (name : String) (hn : s.Name ≠ name) :
    assocFind name (resolveSymbolsStep acc s) = assocFind name acc := by
  rw [resolveSymbolsStep]
  cases hfind : assocFind s.Name acc with
  | none =>
      dsimp only
      rw [assocFind_append_single]
      cases h2 : assocFind name acc <;> simp [hn]
  | some c =>
      dsimp only
      split
      · exact assocFind_assocSet_other s.Name name s hn acc
      · rfl

/-- One loop iteration preserves key distinctness. -/
theorem resolve_step_nodup (acc : List (String × ELFSymbol)) (s : ELFSymbol)
    (h : (assocKeys acc).Nodup) : (assocKeys (resolveSymbolsStep acc s)).Nodup := by
  rw [resolveSymbolsStep]
  cases hfind : assocFind s.Name acc with
  | none =>
      dsimp only
      simp only [assocKeys, List.map_append, List.map_cons, List.map_nil]
      rw [List.nodup_append]
      refine ⟨h, List.nodup_singleton _, ?_⟩
      intro a ha hb
      simp only [List.mem_cons, List.not_mem_nil, or_false] at hb
      subst hb
      exact ((assocFind_eq_none_iff s.Name acc).mp hfind) ha
  | some c =>
      dsimp only
      split
      · rw [assocKeys_assocSet]; exact h
      · exact h

/-- Folding the `resolveSymbols` loop body refines the per-name conflict-rule
fold, for every starting map. -/
theorem resolve_foldl_char (symbols : List ELFSymbol) :
    ∀ (acc : List (String × ELFSymbol)) (name : String),
      assocFind name (symbols.foldl resolveSymbolsStep acc) =
        (symbols.filter (fun s => s.Name = name)).foldl
          (fun cur s =>
            match cur with
            | none => some s
            | some c => some (specResolveRule c s)) (assocFind name acc) := by
  induction symbols with
  | nil => intro acc name; rfl
  | cons s rest ih =>
      intro acc name
      rw [List.foldl_cons, ih]
      by_cases hn : s.Name = name
      · have hfilter : (s :: rest).filter (fun x => x.Name = name) =
            s :: rest.filter (fun x => x.Name = name) := by
          simp [List.filter_cons, hn]
        rw [hfilter, List.foldl_cons]
        have := resolve_step_same acc s
        rw [hn] at this
        rw [this]
      · have hfilter : (s :: rest).filter (fun x => x.Name = name) =
            rest.filter (fun x => x.Name = name) := by
          simp [List.filter_cons, hn]
        rw [hfilter, resolve_step_other acc s name hn]

/-- The `resolveSymbols` loop never duplicates a key. -/
theorem resolve_foldl_nodup (symbols : List ELFSymbol) :
    ∀ acc : List (String × ELFSymbol), (assocKeys acc).Nodup →
      (assocKeys (symbols.foldl resolveSymbolsStep acc)).Nodup := by
  induction symbols with
  | nil => intro acc h; exact h
  | cons s rest ih =>
      intro acc h
      rw [List.foldl_cons]
      exact ih _ (resolve_step_nodup acc s h)

/-- Global symbol `foo` of the defined type `STT_FUNC` (input A). -/
def fooFunc : ELFSymbol :=
  { Name := "foo", Value := 16, Info := 18, Type' := "STT_FUNC", Binding := "STB_GLOBAL" }

/-- Undefined placeholder `foo` of type `STT_NOTYPE` (input B). -/
def fooNoType : ELFSymbol :=
  { Name := "foo", Value := 0, Info := 16, Type' := "STT_NOTYPE", Binding := "STB_GLOBAL" }

/-- C4 (confirmed): the resolved table binds every name at most once; the
binding for each name is exactly the fold of the "defined beats recorded
`STT_NOTYPE`, otherwise the recorded (first) one wins" rule over that name's
occurrences in input order; and in both input orders a defined `foo`
(`STT_FUNC`) together with a `foo` placeholder (`STT_NOTYPE`) resolves to
exactly one `foo` carrying the defined type. -/
theorem resolveSymbols_claim :
    (∀ (symbols : List ELFSymbol) (name : String),
       assocFind name (resolveSymbolsMap symbols) = specResolveOne name symbols) ∧
    (∀ symbols : List ELFSymbol, (assocKeys (resolveSymbolsMap symbols)).Nodup) ∧
    resolveSymbols [fooFunc, fooNoType] = [fooFunc] ∧
    resolveSymbols [fooNoType, fooFunc] = [fooFunc] := by
  refine ⟨?_, ?_, by decide, by decide⟩
  · intro symbols name
    rw [resolveSymbolsMap, resolve_foldl_char, specResolveOne]
    rfl
  · intro symbols
    exact resolve_foldl_nodup symbols [] (by simp [assocKeys])

/-! ## Claim C5: linker section merging -/

/-- The merge applied by `mergeSections` to the recorded section and an
incoming same-named one: bytes appended, `uint64` sizes added. -/
def specMergeCombine (cur s : ELFSection) : ELFSection :=
  { cur with
      Data := cur.Data ++ s.Data
      Size := (cur.Size + s.Size) % 18446744073709551616 }

/-- The merged section the claim predicts for a name: the first same-named
input carrying the concatenation of all same-named payloads in input order
and the (uint64) sum of their sizes. -/
def specMergedSection (name : String) (sections : List ELFSection) : Option ELFSection :=
  match sections.filter (fun s => s.Name = name) with
  | [] => none
  | first :: rest =>
      some { first with
               Data := first.Data ++ (rest.map (fun s => s.Data)).flatten
               Size := (first.Size + (rest.map (fun s => s.Size)).sum) % 18446744073709551616 }

/-- One merge iteration, observed at the incoming section's own name. -/
theorem merge_step_same (acc : List (String × ELFSection)) (s : ELFSection) :
    assocFind s.Name (mergeSectionsStep acc s) =
      match assocFind s.Name acc with
      | none => some s
      | some c => some (specMergeCombine c s) := by
  rw [mergeSectionsStep]
  cases hfind : assocFind s.Name acc with
  | none =>
      dsimp only
      rw [assocFind_append_single, hfind]
      simp
  | some c =>
      dsimp only
      rw [assocFind_assocSet_same s.Name _ acc (by rw [hfind]; rfl)]
      rfl

/-- One merge iteration, observed at any other name. -/
theorem merge_step_other (acc : List (String × ELFSection)) (s : ELFSection)
    (name : String) (hn : s.Name ≠ name) :
    assocFind name (mergeSectionsStep acc s) = assocFind name acc := by
  rw [mergeSectionsStep]
  cases hfind : assocFind s.Name acc with
  | none =>
      dsimp only
      rw [assocFind_append_single]
      cases h2 : assocFind name acc <;> simp [hn]
  | some c =>
      dsimp only
      exact assocFind_assocSet_other s.Name name _ hn acc

/-- One merge iteration preserves key distinctness. -/
theorem merge_step_nodup (acc : List (String × ELFSection)) (s : ELFSection)
    (h : (assocKeys acc).Nodup) : (assocKeys (mergeSectionsStep acc s)).Nodup := by
  rw [mergeSectionsStep]
  cases hfind : assocFind s.Name acc with
  | none =>
      dsimp only
      simp only [assocKeys, List.map_append, List.map_cons, List.map_nil]
      rw [List.nodup_append]
      refine ⟨h, List.nodup_singleton _, ?_⟩
      intro a ha hb
      simp only [List.mem_cons, List.not_mem_nil, or_false] at hb
      subst hb
      exact ((assocFind_eq_none_iff s.Name acc).mp hfind) ha
  | some c =>
      dsimp only
      rw [assocKeys_assocSet]
      exact h

/-- Folding the `mergeSections` loop body refines the per-name combine fold,
for every starting map. -/
theorem merge_foldl_char (sections : List ELFSection) :
    ∀ (acc : List (String × ELFSection)) (name : String),
      assocFind name (sections.foldl mergeSectionsStep acc) =
        (sections.filter (fun s => s.Name = name)).foldl
          (fun cur s =>
            match cur with
            | none => some s
            | some c => some (specMergeCombine c s)) (assocFind name acc) := by
  induction sections with
  | nil => intro acc name; rfl
  | cons s rest ih =>
      intro acc name
      rw [List.foldl_cons, ih]
      by_cases hn : s.Name = name
      · have hfilter : (s :: rest).filter (fun x => x.Name = name) =
            s :: rest.filter (fun x => x.Name = name) := by
          simp [List.filter_cons, hn]
        rw [hfilter, List.foldl_cons]
        have := merge_step_same acc s
        rw [hn] at this
        rw [this]
      · have hfilter : (s :: rest).filter (fun x => x.Name = name) =
            rest.filter (fun x => x.Name = name) := by
          simp [List.filter_cons, hn]
        rw [hfilter, merge_step_other acc s name hn]

/-- The `mergeSections` loop never duplicates a key. -/
theorem merge_foldl_nodup (sections : List ELFSection) :
    ∀ acc : List (String × ELFSection), (assocKeys acc).Nodup →
      (assocKeys (sections.foldl mergeSectionsStep acc)).Nodup := by
  induction sections with
  | nil => intro acc h; exact h
  | cons s rest ih =>
      intro acc h
      rw [List.foldl_cons]
      exact ih _ (merge_step_nodup acc s h)

/-- Option-valued combine fold started at `some first`. -/
theorem merge_option_foldl (l : List ELFSection) :
    ∀ first : ELFSection,
      l.foldl
        (fun cur s =>
          match cur with
          | none => some s
          | some c => some (specMergeCombine c s)) (some first) =
        some (l.foldl specMergeCombine first) := by
  induction l with
  | nil => intro first; rfl
  | cons s rest ih => intro first; rw [List.foldl_cons, List.foldl_cons]; exact ih _

/-- Closed form of the combine fold: concatenated payloads, summed (uint64)
sizes. -/
theorem merge_combine_closed (l : List ELFSection) :
    ∀ first : ELFSection, first.Size < 18446744073709551616 →
      l.foldl specMergeCombine first =
        { first with
            Data := first.Data ++ (l.map (fun s => s.Data)).flatten
            Size := (first.Size + (l.map (fun s => s.Size)).sum) % 18446744073709551616 } := by
  induction l with
  | nil =>
      intro first hfirst
      simp [Nat.mod_eq_of_lt hfirst]
  | cons r rest ih =>
      intro first hfirst
      rw [List.foldl_cons, ih (specMergeCombine first r) (Nat.mod_lt _ (by norm_num))]
      simp only [specMergeCombine, List.map_cons, List.flatten_cons, List.sum_cons]
      congr 1
      · rw [Nat.mod_add_mod, Nat.add_assoc]
      · rw [List.append_assoc]

/-- C5 (confirmed): for `uint64`-ranged input sizes, the merged map binds
each name at most once, and binds a name exactly when a section of that name
occurs, to the first such section carrying the concatenation of all
same-named payloads in input order and the sum (as `uint64` addition) of
their sizes; concretely, `.text` inputs of sizes 10 and 20 merge to one
`.text` of size 30 with the concatenated bytes. -/
theorem mergeSections_claim :
    (∀ (sections : List ELFSection) (name : String),
       (∀ s ∈ sections, s.Size < 18446744073709551616) →
       assocFind name (mergeSectionsMap sections) = specMergedSection name sections) ∧
    (∀ sections : List ELFSection, (assocKeys (mergeSectionsMap sections)).Nodup) ∧
    mergeSections
        [{ Name := ".text", Size := 10, Data := [1, 2, 3, 4, 5, 6, 7, 8, 9, 10] },
         { Name := ".text", Size := 20,
           Data := [11, 12, 13, 14, 15, 16, 17, 18, 19, 20,
                    21, 22, 23, 24, 25, 26, 27, 28, 29, 30] }] =
      [{ Name := ".text", Size := 30,
         Data := [1, 2, 3, 4, 5, 6, 7, 8, 9, 10,
                  11, 12, 13, 14, 15, 16, 17, 18, 19, 20,
                  21, 22, 23, 24, 25, 26, 27, 28, 29, 30] }] := by
  refine ⟨?_, ?_, by decide⟩
  · intro sections name hb
    rw [mergeSectionsMap, merge_foldl_char, specMergedSection]
    cases hfilter : sections.filter (fun s => s.Name = name) with
    | nil => rfl
    | cons first rest =>
        have hfirst : first.Size < 18446744073709551616 :=
          hb first (List.mem_of_mem_filter (hfilter ▸ List.mem_cons_self first rest))
        rw [List.foldl_cons]
        show rest.foldl _ (some first) = _
        rw [merge_option_foldl, merge_combine_closed rest first hfirst]
  · intro sections
    exact merge_foldl_nodup sections [] (by simp [assocKeys])

/-- Witness for `mergeSections_claim` at two same-named sections within the
`uint64` range. -/
theorem mergeSections_claim_witness :
    assocFind ".text"
        (mergeSectionsMap
          [{ Name := ".text", Size := 10, Data := [1, 2] },
           { Name := ".text", Size := 20, Data := [3] }]) =
      specMergedSection ".text"
        [{ Name := ".text", Size := 10, Data := [1, 2] },
         { Name := ".text", Size := 20, Data := [3] }] :=
  mergeSections_claim.1
    [{ Name := ".text", Size := 10, Data := [1, 2] },
     { Name := ".text", Size := 20, Data := [3] }] ".text" (by decide)

/-! ## Claim C8: nm output ordering and shape -/

/-- Symbols with values 50, 10, 30 (in that input order). -/
def nmDemoELF : ELF :=
  { Class := "ELF64"
    Symbols := [{ Name := "a", Value := 50 }, { Name := "b", Value := 10 },
                { Name := "c", Value := 30 }] }

/-- C8 (confirmed): `listSymbols` prints exactly one line per symbol with a
non-empty name (unnamed symbols are skipped), the printed symbols are the
named symbols reordered ascending by value, and a symbol with value 0 and
type `STT_NOTYPE` prints a blank (17-space) address field; in particular
input values `[50, 10, 30]` print in the order `10, 30, 50`. -/
theorem listSymbols_claim :
    (∀ e : ELF,
       (listSymbols e).length = (e.Symbols.filter fun s => s.Name ≠ "").length ∧
       listSymbols e = (nmPrintedSymbols e).map (nmFormatLine e.Class) ∧
       (nmPrintedSymbols e).Pairwise symValueLE ∧
       List.Perm (nmPrintedSymbols e) (e.Symbols.filter fun s => s.Name ≠ "") ∧
       (∀ s : ELFSymbol, s.Value = 0 → s.Type' = "STT_NOTYPE" →
          nmFormatLine e.Class s =
            "                 " ++ String.mk [Char.ofNat (nmTypeChar s)] ++ " " ++
              s.Name ++ "\n")) ∧
    (nmPrintedSymbols nmDemoELF).map (fun s => s.Value) = [10, 30, 50] := by
  refine ⟨?_, by decide⟩
  intro e
  have hperm : List.Perm (nmPrintedSymbols e) (e.Symbols.filter fun s => s.Name ≠ "") :=
    (List.perm_insertionSort symValueLE e.Symbols).filter _
  have hmap : listSymbols e = (nmPrintedSymbols e).map (nmFormatLine e.Class) := by
    rw [listSymbols]
    split
    · rename_i h0
      have : e.Symbols = [] := List.length_eq_zero.mp h0
      rw [nmPrintedSymbols, sortSymbolsByValue, this]
      rfl
    · rfl
  refine ⟨?_, hmap, ?_, hperm, ?_⟩
  · rw [hmap, List.length_map, hperm.length_eq]
  · exact (List.sorted_insertionSort symValueLE e.Symbols).filter _
  · intro s h1 h2
    rw [nmFormatLine, if_pos ⟨h1, h2⟩]

/-- Witness for `listSymbols_claim` at a zero-value undefined symbol. -/
theorem listSymbols_claim_witness :
    nmFormatLine "ELF64" { Name := "u", Type' := "STT_NOTYPE" } =
      "                 " ++
        String.mk [Char.ofNat (nmTypeChar { Name := "u", Type' := "STT_NOTYPE" })] ++
        " " ++ "u" ++ "\n" :=
  ((listSymbols_claim.1 nmDemoELF).2.2.2.2) { Name := "u", Type' := "STT_NOTYPE" } rfl rfl

/-! ## Archive codec lemmas -/

/-- `padString` always returns exactly the field width. -/
theorem padString_length (s : List Nat) (k : Nat) : (padString s k).length = k := by
  simp only [padString, List.length_append, List.length_take, List.length_replicate]
  omega

/-- A member header is exactly 60 bytes. -/
theorem formatHeader_length (h : ArchiveHeader) : (formatHeader h).length = 60 := by
  simp [formatHeader, padString_length]

/-- Bytes written for one member: 60-byte header, payload, and one pad byte
exactly when the payload length is odd. -/
theorem encodeMember_length (m : ArchiveMember) :
    (encodeMember m).length = 60 + m.Data.length + m.Data.length % 2 := by
  rw [encodeMember]
  split <;> rename_i hodd <;>
    simp only [List.length_append, formatHeader_length, List.length_cons, List.length_nil] <;>
    omega

/-- Slicing a concatenation at the front block. -/
theorem sliceBytes_here (A r : List Nat) : sliceBytes (A ++ r) 0 A.length = A := by
  simp only [sliceBytes, List.drop_zero, Nat.sub_zero]
  exact List.take_left A r

/-- Slicing a concatenation past the front block. -/
theorem sliceBytes_shift (A r : List Nat) (a b : Nat) :
    sliceBytes (A ++ r) (A.length + a) (A.length + b) = sliceBytes r a b := by
  simp only [sliceBytes]
  rw [← List.drop_drop, List.drop_left, Nat.add_sub_add_left]

/-- `dropWhile` eats a leading run of spaces. -/
theorem dropWhile_space_replicate (k : Nat) (l : List Nat) :
    (List.replicate k 32 ++ l).dropWhile isArSpace = l.dropWhile isArSpace := by
  induction k with
  | zero => rfl
  | succ j ih => simp [List.replicate_succ, List.dropWhile_cons, isArSpace, ih]

/-- A byte found by `head?` is in the list. -/
theorem mem_of_head?_eq (l : List Nat) (b : Nat) (h : l.head? = some b) : b ∈ l := by
  cases l <;> simp_all

/-- A byte found by `getLast?` is in the list. -/
theorem mem_of_getLast?_eq (l : List Nat) (b : Nat) (h : l.getLast? = some b) : b ∈ l := by
  rw [← List.head?_reverse] at h
  exact List.mem_reverse.mp (mem_of_head?_eq l.reverse b h)

/-- Space-padding round-trips through `trimSpace` for a field value that is
neither space-led nor space-trailed. -/
theorem trimSpace_pad (x : List Nat) (k : Nat)
    (h1 : ∀ b, x.head? = some b → isArSpace b = false)
    (h2 : ∀ b, x.getLast? = some b → isArSpace b = false) :
    trimSpace (x ++ List.replicate k 32) = x := by
  cases x with
  | nil =>
      rw [trimSpace, List.nil_append]
      have : (List.replicate k 32).dropWhile isArSpace = [] := by
        simpa using dropWhile_space_replicate k []
      rw [this]
      rfl
  | cons h t =>
      have hh : isArSpace h = false := h1 h rfl
      have step1 : ((h :: t) ++ List.replicate k 32).dropWhile isArSpace =
          (h :: t) ++ List.replicate k 32 := by
        rw [List.cons_append, List.dropWhile_cons, hh]
        simp
      rw [trimSpace, step1, List.reverse_append, List.reverse_replicate,
        dropWhile_space_replicate]
      have hlastspace : isArSpace ((h :: t).getLast (by simp)) = false :=
        h2 _ (List.getLast?_eq_getLast _ _)
      cases hrev : (h :: t).reverse with
      | nil => simp at hrev
      | cons y ys =>
          have hy : isArSpace y = false := by
            have hhead : ((h :: t).reverse).head? = some ((h :: t).getLast (by simp)) := by
              rw [List.head?_reverse]
              exact List.getLast?_eq_getLast _ _
            rw [hrev] at hhead
            rw [Option.some.inj hhead]
            exact hlastspace
          rw [List.dropWhile_cons, hy]
          simp only [Bool.false_eq_true, if_false]
          rw [← hrev, List.reverse_reverse]

/-! ## Decimal digit round-trip lemmas -/

/-- The digit recursion is fuel-irrelevant once the fuel covers the value. -/
theorem decDigitsRevAux_stable :
    ∀ n fuel1 fuel2, n ≤ fuel1 → n ≤ fuel2 →
      decDigitsRevAux fuel1 n = decDigitsRevAux fuel2 n := by
  intro n
  induction n using Nat.strong_induction_on with
  | _ n ih =>
      intro fuel1 fuel2 h1 h2
      cases n with
      | zero => cases fuel1 <;> cases fuel2 <;> rfl
      | succ m =>
          cases fuel1 with
          | zero => omega
          | succ f1 =>
              cases fuel2 with
              | zero => omega
              | succ f2 =>
                  show (48 + (m + 1) % 10) :: decDigitsRevAux f1 ((m + 1) / 10) =
                    (48 + (m + 1) % 10) :: decDigitsRevAux f2 ((m + 1) / 10)
                  congr 1
                  exact ih ((m + 1) / 10) (by omega) f1 f2 (by omega) (by omega)

/-- Unfolding the digit emitter at a positive value. -/
theorem decDigitsRevBytes_succ (m : Nat) :
    decDigitsRevBytes (m + 1) =
      (48 + (m + 1) % 10) :: decDigitsRevBytes ((m + 1) / 10) := by
  show (48 + (m + 1) % 10) :: decDigitsRevAux m ((m + 1) / 10) =
    (48 + (m + 1) % 10) :: decDigitsRevAux ((m + 1) / 10) ((m + 1) / 10)
  congr 1
  exact decDigitsRevAux_stable ((m + 1) / 10) m ((m + 1) / 10) (by omega) (Nat.le_refl _)

/-- Every byte emitted by `decDigitsRevBytes` is an ASCII digit. -/
theorem decDigitsRevBytes_digits :
    ∀ n, ∀ d ∈ decDigitsRevBytes n, 48 ≤ d ∧ d ≤ 57 := by
  intro n
  induction n using Nat.strong_induction_on with
  | _ n ih =>
      cases n with
      | zero => intro d hd; simp [decDigitsRevBytes, decDigitsRevAux] at hd
      | succ m =>
          intro d hd
          rw [decDigitsRevBytes_succ] at hd
          rcases List.mem_cons.mp hd with h | h
          · subst h
            have : (m + 1) % 10 < 10 := Nat.mod_lt _ (by norm_num)
            omega
          · exact ih ((m + 1) / 10) (Nat.div_lt_self (Nat.succ_pos m) (by norm_num)) d h

/-- Digit-count bound: `n < 10 ^ k` needs at most `k` digits. -/
theorem decDigitsRevBytes_length :
    ∀ n k, n < 10 ^ k → (decDigitsRevBytes n).length ≤ k := by
  intro n
  induction n using Nat.strong_induction_on with
  | _ n ih =>
      cases n with
      | zero => intro k _; simp [decDigitsRevBytes, decDigitsRevAux]
      | succ m =>
          intro k hk
          rw [decDigitsRevBytes_succ]
          cases k with
          | zero => simp at hk
          | succ j =>
              have hdiv : (m + 1) / 10 < 10 ^ j := by
                rw [Nat.div_lt_iff_lt_mul (by norm_num)]
                calc m + 1 < 10 ^ (j + 1) := hk
                  _ = 10 ^ j * 10 := by rw [Nat.pow_succ]
              simp only [List.length_cons]
              exact Nat.succ_le_succ
                (ih ((m + 1) / 10) (Nat.div_lt_self (Nat.succ_pos m) (by norm_num)) j hdiv)

/-- The most-significant-first digit value fold. -/
def decValue (ds : List Nat) : Nat := ds.foldl (fun a d => a * 10 + (d - 48)) 0

/-- Appending one digit multiplies the value by ten. -/
theorem decValue_append (ds : List Nat) (d : Nat) :
    ∀ a, (ds ++ [d]).foldl (fun a d => a * 10 + (d - 48)) a =
      ds.foldl (fun a d => a * 10 + (d - 48)) a * 10 + (d - 48) := by
  induction ds with
  | nil => intro a; rfl
  | cons x xs ih => intro a; rw [List.cons_append, List.foldl_cons, List.foldl_cons, ih]

/-- The emitted digits evaluate back to the number. -/
theorem decValue_decDigitsRevBytes :
    ∀ n, decValue (decDigitsRevBytes n).reverse = n := by
  intro n
  induction n using Nat.strong_induction_on with
  | _ n ih =>
      cases n with
      | zero => simp [decDigitsRevBytes, decDigitsRevAux, decValue]
      | succ m =>
          rw [decDigitsRevBytes_succ, List.reverse_cons, decValue,
            decValue_append, ← decValue,
            ih ((m + 1) / 10) (Nat.div_lt_self (Nat.succ_pos m) (by norm_num))]
          omega

/-- `natToDecBytes` facts: nonempty, all ASCII digits, value recovered. -/
theorem natToDecBytes_spec (n : Nat) :
    natToDecBytes n ≠ [] ∧ (∀ d ∈ natToDecBytes n, 48 ≤ d ∧ d ≤ 57) ∧
      decValue (natToDecBytes n) = n := by
  rw [natToDecBytes]
  by_cases h0 : n = 0
  · subst h0; refine ⟨by simp, ?_, rfl⟩
    intro d hd
    simp at hd
    omega
  · rw [if_neg h0]
    refine ⟨?_, ?_, decValue_decDigitsRevBytes n⟩
    · intro hemp
      have : decDigitsRevBytes n = [] := by
        have := congrArg List.reverse hemp
        simpa using this
      cases n with
      | zero => exact h0 rfl
      | succ m => rw [decDigitsRevBytes_succ] at this; cases this
    · intro d hd
      exact decDigitsRevBytes_digits n d (List.mem_reverse.mp hd)

/-- Digit-count bound for `natToDecBytes`. -/
theorem natToDecBytes_length (n k : Nat) (h1 : n < 10 ^ k) (h2 : 1 ≤ k) :
    (natToDecBytes n).length ≤ k := by
  rw [natToDecBytes]
  by_cases h0 : n = 0
  · subst h0; simpa using h2
  · rw [if_neg h0, List.length_reverse]
    exact decDigitsRevBytes_length n k h1

/-- `parseDecDigits` recovers the value of an emitted digit string. -/
theorem parseDecDigits_natToDecBytes (n : Nat) :
    parseDecDigits (natToDecBytes n) = some n := by
  obtain ⟨hne, hdig, hval⟩ := natToDecBytes_spec n
  rw [parseDecDigits, if_neg (by simpa [List.isEmpty_iff] using hne), if_pos]
  · rw [← decValue, hval]
  · rw [List.all_eq_true]
    intro d hd
    have := hdig d hd
    simp only [Bool.and_eq_true, decide_eq_true_eq]
    omega

/-- Slicing a concatenation: the front block, by its known width. -/
theorem sliceBytes_first (A r : List Nat) (n : Nat) (hA : A.length = n) :
    sliceBytes (A ++ r) 0 n = A := by
  subst hA
  exact sliceBytes_here A r

/-- Slicing a concatenation entirely past the front block. -/
theorem sliceBytes_skip (A r : List Nat) (a b : Nat) (ha : A.length ≤ a) :
    sliceBytes (A ++ r) a b = sliceBytes r (a - A.length) (b - A.length) := by
  obtain ⟨d, rfl⟩ : ∃ d, a = A.length + d := ⟨a - A.length, by omega⟩
  simp only [sliceBytes, List.drop_append]
  congr 1
  · omega
  · congr 1
    omega

/-- Decomposing a written member header into its parsed fields. -/
theorem parseARHeader_formatHeader (h : ArchiveHeader) :
    parseARHeader (formatHeader h) =
      { Name := trimSpace (padString h.Name 16)
        Date := parseInt64Go (trimSpace (padString (intToDecBytes h.Date) 12))
        UID := parseInt64Go (trimSpace (padString (intToDecBytes h.UID) 6))
        GID := parseInt64Go (trimSpace (padString (intToDecBytes h.GID) 6))
        Mode := parseInt64Go (trimSpace (padString (intToOctBytes h.Mode) 8))
        Size := parseInt64Go (trimSpace (padString (intToDecBytes h.Size) 10))
        EndChar := [96, 10] } := by
  have hF : formatHeader h =
      padString h.Name 16 ++
        (padString (intToDecBytes h.Date) 12 ++
          (padString (intToDecBytes h.UID) 6 ++
            (padString (intToDecBytes h.GID) 6 ++
              (padString (intToOctBytes h.Mode) 8 ++
                (padString (intToDecBytes h.Size) 10 ++ [96, 10]))))) := by
    rw [formatHeader]
    simp [List.append_assoc]
  have e1 : sliceBytes (formatHeader h) 0 16 = padString h.Name 16 := by
    rw [hF]
    exact sliceBytes_first _ _ 16 (padString_length _ _)
  have e2 : sliceBytes (formatHeader h) 16 28 = padString (intToDecBytes h.Date) 12 := by
    rw [hF, sliceBytes_skip _ _ 16 28 (by simp [padString_length])]
    simp only [padString_length]
    norm_num
    exact sliceBytes_first _ _ 12 (padString_length _ _)
  have e3 : sliceBytes (formatHeader h) 28 34 = padString (intToDecBytes h.UID) 6 := by
    rw [hF, sliceBytes_skip _ _ 28 34 (by simp [padString_length])]
    simp only [padString_length]
    norm_num
    rw [sliceBytes_skip _ _ 12 18 (by simp [padString_length])]
    simp only [padString_length]
    norm_num
    exact sliceBytes_first _ _ 6 (padString_length _ _)
  have e4 : sliceBytes (formatHeader h) 34 40 = padString (intToDecBytes h.GID) 6 := by
    rw [hF, sliceBytes_skip _ _ 34 40 (by simp [padString_length])]
    simp only [padString_length]
    norm_num
    rw [sliceBytes_skip _ _ 18 24 (by simp [padString_length])]
    simp only [padString_length]
    norm_num
    rw [sliceBytes_skip _ _ 6 12 (by simp [padString_length])]
    simp only [padString_length]
    norm_num
    exact sliceBytes_first _ _ 6 (padString_length _ _)
  have e5 : sliceBytes (formatHeader h) 40 48 = padString (intToOctBytes h.Mode) 8 := by
    rw [hF, sliceBytes_skip _ _ 40 48 (by simp [padString_length])]
    simp only [padString_length]
    norm_num
    rw [sliceBytes_skip _ _ 24 32 (by simp [padString_length])]
    simp only [padString_length]
    norm_num
    rw [sliceBytes_skip _ _ 12 20 (by simp [padString_length])]
    simp only [padString_length]
    norm_num
    rw [sliceBytes_skip _ _ 6 14 (by simp [padString_length])]
    simp only [padString_length]
    norm_num
    exact sliceBytes_first _ _ 8 (padString_length _ _)
  have e6 : sliceBytes (formatHeader h) 48 58 = padString (intToDecBytes h.Size) 10 := by
    rw [hF, sliceBytes_skip _ _ 48 58 (by simp [padString_length])]
    simp only [padString_length]
    norm_num
    rw [sliceBytes_skip _ _ 32 42 (by simp [padString_length])]
    simp only [padString_length]
    norm_num
    rw [sliceBytes_skip _ _ 20 30 (by simp [padString_length])]
    simp only [padString_length]
    norm_num
    rw [sliceBytes_skip _ _ 14 24 (by simp [padString_length])]
    simp only [padString_length]
    norm_num
    rw [sliceBytes_skip _ _ 8 18 (by simp [padString_length])]
    simp only [padString_length]
    norm_num
    exact sliceBytes_first _ _ 10 (padString_length _ _)
  have e7 : sliceBytes (formatHeader h) 58 60 = [96, 10] := by
    rw [hF, sliceBytes_skip _ _ 58 60 (by simp [padString_length])]
    simp only [padString_length]
    norm_num
    rw [sliceBytes_skip _ _ 42 44 (by simp [padString_length])]
    simp only [padString_length]
    norm_num
    rw [sliceBytes_skip _ _ 30 32 (by simp [padString_length])]
    simp only [padString_length]
    norm_num
    rw [sliceBytes_skip _ _ 24 26 (by simp [padString_length])]
    simp only [padString_length]
    norm_num
    rw [sliceBytes_skip _ _ 18 20 (by simp [padString_length])]
    simp only [padString_length]
    norm_num
    rw [sliceBytes_skip _ _ 10 12 (by simp [padString_length])]
    simp only [padString_length]
    norm_num
    rfl
  rw [parseARHeader, e1, e2, e3, e4, e5, e6, e7]

/-- `strconv.ParseInt` recovers a natural number in `int64` range from its
decimal digits. -/
theorem parseInt64Go_natToDecBytes (n : Nat) (h : n ≤ 9223372036854775807) :
    parseInt64Go (natToDecBytes n) = (n : Int) := by
  obtain ⟨hne, hdig, _⟩ := natToDecBytes_spec n
  have hparse := parseDecDigits_natToDecBytes n
  cases hbytes : natToDecBytes n with
  | nil => exact absurd hbytes hne
  | cons c rest =>
      have hc : 48 ≤ c ∧ c ≤ 57 := hdig c (hbytes ▸ List.mem_cons_self c rest)
      rw [hbytes] at hparse
      rw [parseInt64Go]
      dsimp only
      rw [if_neg (by omega), if_neg (by omega)]
      rw [hparse]
      dsimp only
      have hle : (n : Int) ≤ 9223372036854775807 := by exact_mod_cast h
      rw [if_neg (Int.not_lt.mpr hle)]
      simp

/-- A name that fits the 16-byte field: short enough and neither space-led
nor space-trailed. -/
def goodName (x : List Nat) : Bool :=
  decide (x.length ≤ 16) &&
  (match x.head? with
   | none => true
   | some b => !isArSpace b) &&
  (match x.getLast? with
   | none => true
   | some b => !isArSpace b)

/-- Unfolding `goodName`. -/
theorem goodName_spec (x : List Nat) (h : goodName x = true) :
    x.length ≤ 16 ∧ (∀ b, x.head? = some b → isArSpace b = false) ∧
      (∀ b, x.getLast? = some b → isArSpace b = false) := by
  rw [goodName, Bool.and_eq_true, Bool.and_eq_true] at h
  obtain ⟨⟨hlen, hhead⟩, hlast⟩ := h
  refine ⟨by simpa using hlen, ?_, ?_⟩
  · intro b hb
    rw [hb] at hhead
    simpa using hhead
  · intro b hb
    rw [hb] at hlast
    simpa using hlast

/-- The round-trip precondition for one archive member: a name that fits the
16-byte field, a declared size equal to the payload length, and a payload
within the 100 MB ceiling. -/
def goodMember (m : ArchiveMember) : Prop :=
  goodName m.Header.Name = true ∧
  m.Header.Size = (m.Data.length : Int) ∧
  m.Data.length ≤ 104857600

instance : DecidablePred goodMember := fun m => by
  rw [goodMember]
  infer_instance

/-- A member as it comes back from re-reading its own written bytes. -/
def memberRT (m : ArchiveMember) : ArchiveMember :=
  { Header := parseARHeader (formatHeader m.Header), Data := m.Data }

/-- The name field round-trips for a good member. -/
theorem memberRT_Name (m : ArchiveMember) (hg : goodMember m) :
    (memberRT m).Header.Name = m.Header.Name := by
  obtain ⟨hname, _, _⟩ := hg
  obtain ⟨hlen, hhead, hlast⟩ := goodName_spec _ hname
  rw [memberRT, parseARHeader_formatHeader]
  show trimSpace (padString m.Header.Name 16) = m.Header.Name
  rw [padString, List.take_of_length_le hlen]
  exact trimSpace_pad _ _ hhead hlast

/-- The size field round-trips whenever the declared size matches the
payload and stays under the ceiling (the name plays no role). -/
theorem memberRT_Size (m : ArchiveMember)
    (hsize : m.Header.Size = (m.Data.length : Int))
    (hceil : m.Data.length ≤ 104857600) :
    (memberRT m).Header.Size = m.Header.Size := by
  rw [memberRT, parseARHeader_formatHeader]
  show parseInt64Go (trimSpace (padString (intToDecBytes m.Header.Size) 10)) = m.Header.Size
  rw [hsize]
  have hnat : intToDecBytes ((m.Data.length : Int)) = natToDecBytes m.Data.length := by
    rw [intToDecBytes, if_neg (by omega)]
    congr 1
  rw [hnat]
  have hdiglen : (natToDecBytes m.Data.length).length ≤ 10 :=
    natToDecBytes_length _ 10 (by omega) (by omega)
  obtain ⟨_, hdig, _⟩ := natToDecBytes_spec m.Data.length
  rw [padString, List.take_of_length_le hdiglen]
  have hh : ∀ b, (natToDecBytes m.Data.length).head? = some b → isArSpace b = false := by
    intro b hb
    have hd := hdig b (mem_of_head?_eq _ _ hb)
    simp only [isArSpace, Bool.or_eq_false_iff, decide_eq_false_iff_not]
    omega
  have hl : ∀ b, (natToDecBytes m.Data.length).getLast? = some b → isArSpace b = false := by
    intro b hb
    have hd := hdig b (mem_of_getLast?_eq _ _ hb)
    simp only [isArSpace, Bool.or_eq_false_iff, decide_eq_false_iff_not]
    omega
  rw [trimSpace_pad _ _ hh hl]
  exact parseInt64Go_natToDecBytes _ (by omega)

/-- Reading one well-formed member from the front of the stream consumes
exactly its written bytes and re-yields it (header re-parsed), continuing
with the remainder. -/
theorem readMembers_cons (m : ArchiveMember) (rest : List Nat)
    (hsize : m.Header.Size = (m.Data.length : Int))
    (hceil : m.Data.length ≤ 104857600) :
    readMembers (encodeMember m ++ rest) =
      (readMembers rest).map (fun ms => memberRT m :: ms) := by
  have hS : (parseARHeader (formatHeader m.Header)).Size = (m.Data.length : Int) := by
    have := memberRT_Size m hsize hceil
    rw [memberRT] at this
    dsimp only at this
    rw [this, hsize]
  have hsplit : encodeMember m ++ rest =
      formatHeader m.Header ++
        (m.Data ++ ((if m.Data.length % 2 ≠ 0 then [10] else []) ++ rest)) := by
    rw [encodeMember]
    simp [List.append_assoc]
  rw [hsplit, readMembers]
  rw [if_neg (by simp [formatHeader_length])]
  dsimp only
  rw [show (60 : Nat) = (formatHeader m.Header).length from (formatHeader_length _).symm]
  rw [List.take_left, List.drop_left, hS]
  rw [if_neg (by
    rw [not_or]
    constructor
    · omega
    · rw [sizeCeiling]
      push_cast
      omega)]
  rw [Int.toNat_natCast]
  rw [if_neg (by simp)]
  rw [List.take_left, List.drop_left]
  by_cases ho : m.Data.length % 2 ≠ 0
  · rw [if_pos ho, if_pos ho]
    simp only [List.singleton_append, List.drop_succ_cons, List.drop_zero]
    cases hr : readMembers rest <;> rfl
  · rw [if_neg ho, if_neg ho, List.nil_append]
    cases hr : readMembers rest <;> rfl

/-- The member loop stops cleanly at the end of the stream. -/
theorem readMembers_nil : readMembers [] = .ok [] := by
  rw [readMembers]
  rw [if_pos (by simp)]

/-- The magic prefix is validated and consumed. -/
theorem readArchive_magic (tail : List Nat) :
    readArchive (arMagicBytes ++ tail) = readMembers tail := by
  rw [readArchive]
  rw [if_neg (by simp [arMagicBytes])]
  rw [show (8 : Nat) = arMagicBytes.length from rfl, List.take_left, List.drop_left]
  rw [if_neg (by simp [padTo, arMagicBytes])]

/-- Reading back a stream of well-formed encoded members yields them all,
headers re-parsed. -/
theorem readMembers_encodeAll (members : List ArchiveMember)
    (hgood : ∀ m ∈ members, goodMember m) :
    readMembers ((members.map encodeMember).flatten) = .ok (members.map memberRT) := by
  induction members with
  | nil =>
      rw [List.map_nil, List.flatten_nil, readMembers_nil, List.map_nil]
  | cons m rest ih =>
      rw [List.map_cons, List.flatten_cons,
        readMembers_cons m _ (hgood m (List.mem_cons_self m rest)).2.1
          (hgood m (List.mem_cons_self m rest)).2.2,
        ih (fun x hx => hgood x (List.mem_cons_of_mem m hx))]
      rfl

/-- C6 (amended, proved): for members whose names fit the 16-byte header
field without surrounding whitespace and whose declared size equals the
payload length (within the 100 MB ceiling), writing an archive and reading
it back succeeds and yields the same member count with identical names,
declared sizes and payload bytes; on disk each member occupies 60 header
bytes plus its payload plus exactly one pad byte when the payload length is
odd. -/
theorem archive_roundtrip_amended (members : List ArchiveMember)
    (hgood : ∀ m ∈ members, goodMember m) :
    readArchive (writeArchive members) = .ok (members.map memberRT) ∧
    (members.map memberRT).map (fun m => (m.Header.Name, m.Header.Size, m.Data)) =
      members.map (fun m => (m.Header.Name, m.Header.Size, m.Data)) ∧
    (writeArchive members).length =
      8 + (members.map (fun m => 60 + m.Data.length + m.Data.length % 2)).sum := by
  refine ⟨?_, ?_, ?_⟩
  · rw [writeArchive, readArchive_magic, readMembers_encodeAll members hgood]
  · rw [List.map_map]
    apply List.map_congr_left
    intro m hm
    have h1 := memberRT_Name m (hgood m hm)
    have h2 := memberRT_Size m (hgood m hm).2.1 (hgood m hm).2.2
    simp only [Function.comp_apply, h1, h2]
    rfl
  · have hflat : ∀ ms : List ArchiveMember,
        ((ms.map encodeMember).flatten).length =
          (ms.map (fun m => 60 + m.Data.length + m.Data.length % 2)).sum := by
      intro ms
      induction ms with
      | nil => rfl
      | cons m rest ih =>
          rw [List.map_cons, List.flatten_cons, List.length_append, encodeMember_length,
            ih, List.map_cons, List.sum_cons]
    rw [writeArchive, List.length_append, hflat]
    rfl

/-- The two-member demo archive: an odd payload (pad byte exercised) and an
empty one. -/
def arDemoMembers : List ArchiveMember :=
  [{ Header := { Name := [97, 46, 111], Size := 3 }, Data := [1, 2, 3] },
   { Header := { Name := [98, 46, 111], Size := 0 }, Data := [] }]

/-- Witness for `archive_roundtrip_amended` at the demo archive. -/
theorem archive_roundtrip_amended_witness :
    readArchive (writeArchive arDemoMembers) = .ok (arDemoMembers.map memberRT) ∧
    (arDemoMembers.map memberRT).map (fun m => (m.Header.Name, m.Header.Size, m.Data)) =
      arDemoMembers.map (fun m => (m.Header.Name, m.Header.Size, m.Data)) ∧
    (writeArchive arDemoMembers).length =
      8 + (arDemoMembers.map (fun m => 60 + m.Data.length + m.Data.length % 2)).sum :=
  archive_roundtrip_amended arDemoMembers (by decide)

/-- A member whose 17-byte name cannot fit the 16-byte header field. -/
def longNameMember : ArchiveMember :=
  { Header := { Name := List.replicate 17 97, Size := 0 }, Data := [] }

/-- C6 counterexample: writing a member named with 17 `a`s and reading the
archive back yields a member named with only 16 `a`s — the names are not
identical, refuting the unrestricted round-trip claim. -/
theorem archive_roundtrip_counterexample :
    readArchive (writeArchive [longNameMember]) = .ok [memberRT longNameMember] ∧
    (memberRT longNameMember).Header.Name = List.replicate 16 97 ∧
    List.replicate 16 97 ≠ longNameMember.Header.Name := by
  refine ⟨?_, by decide, by decide⟩
  rw [writeArchive, readArchive_magic, List.map_cons, List.map_nil, List.flatten_cons,
    List.flatten_nil, List.append_nil]
  have : encodeMember longNameMember ++ [] = encodeMember longNameMember := List.append_nil _
  rw [← this, readMembers_cons longNameMember [] (by decide) (by decide), readMembers_nil]
  rfl

/-! ## Claim C7: malformed member size aborts the read -/

/-- C7 (confirmed): whenever the member loop reaches a 60-byte header whose
parsed size field is negative or above the 100 MB ceiling, it returns a hard
error carrying no member list — in particular for an archive that begins
with any number of well-formed members followed by such a header, the entire
`readArchive` aborts and the preceding members are not returned. -/
theorem readArchive_bad_size :
    (∀ b : List Nat, 60 ≤ b.length →
       ((parseARHeader (b.take 60)).Size < 0 ∨
         (parseARHeader (b.take 60)).Size > (sizeCeiling : Int)) →
       readMembers b =
         .error ("invalid member size: " ++ intToDecStr (parseARHeader (b.take 60)).Size)) ∧
    (∀ (members : List ArchiveMember) (rest : List Nat),
       (∀ m ∈ members, goodMember m) → 60 ≤ rest.length →
       ((parseARHeader (rest.take 60)).Size < 0 ∨
         (parseARHeader (rest.take 60)).Size > (sizeCeiling : Int)) →
       readArchive (arMagicBytes ++ ((members.map encodeMember).flatten ++ rest)) =
         .error ("invalid member size: " ++ intToDecStr (parseARHeader (rest.take 60)).Size)) := by
  have hloop : ∀ b : List Nat, 60 ≤ b.length →
      ((parseARHeader (b.take 60)).Size < 0 ∨
        (parseARHeader (b.take 60)).Size > (sizeCeiling : Int)) →
      readMembers b =
        .error ("invalid member size: " ++ intToDecStr (parseARHeader (b.take 60)).Size) := by
    intro b hlen hbad
    rw [readMembers]
    rw [if_neg (by omega)]
    dsimp only
    rw [if_pos hbad]
  refine ⟨hloop, ?_⟩
  intro members rest hgood hlen hbad
  rw [readArchive_magic]
  induction members with
  | nil =>
      rw [List.map_nil, List.flatten_nil, List.nil_append]
      exact hloop rest hlen hbad
  | cons m ms ih =>
      rw [List.map_cons, List.flatten_cons, List.append_assoc,
        readMembers_cons m _ (hgood m (List.mem_cons_self m ms)).2.1
          (hgood m (List.mem_cons_self m ms)).2.2,
        ih (fun x hx => hgood x (List.mem_cons_of_mem m hx))]
      rfl

/-- A 60-byte member header declaring size `-1`. -/
def badSizeHeaderBytes : List Nat := formatHeader { Name := [98, 97, 100], Size := -1 }

/-- Witness for `readArchive_bad_size`: one good member followed by a header
declaring size `-1`. -/
theorem readArchive_bad_size_witness :
    readArchive (arMagicBytes ++
        (([{ Header := { Name := [97, 46, 111], Size := 3 },
             Data := [1, 2, 3] }].map encodeMember).flatten ++ badSizeHeaderBytes)) =
      .error ("invalid member size: " ++
        intToDecStr (parseARHeader (badSizeHeaderBytes.take 60)).Size) :=
  readArchive_bad_size.2
    [{ Header := { Name := [97, 46, 111], Size := 3 }, Data := [1, 2, 3] }]
    badSizeHeaderBytes (by decide) (by decide) (by decide)
